import Mathlib

/-!
Shallow embedding of `zillow/go-yaml-jsonpointer` (`yptr.go`): an extended
JSON-Pointer resolver and inserter over YAML tree nodes.

Modelling conventions:
* `yaml.Node` becomes the inductive `Node` (kind, tag, value, content);
  position fields (`Line`/`Column`) are diagnostics only and are omitted.
* Go strings are Lean `String`s; the byte-level operations of the source
  (`strings.Split`, `strings.HasPrefix`, `tok[1:]`) are modelled over the
  character list, which coincides with the byte view for the ASCII
  separators `/`, `~`, `{`, `-` involved.
* Go's in-place mutation through `*yaml.Node` pointers is rendered
  functionally: every mutating function returns the updated node, and
  mutation of an element reached through `match` is rendered as replacing
  that element at its position (the position a pointer-identical traversal
  selects).  Trees are assumed alias-free, which holds for trees built by
  the yaml parser without anchors.
* A Go runtime panic (out-of-range slice index such as `toks[0]` on an
  empty slice, or `next[0]` on an empty match list) is modelled by the
  `Res.panic` result, distinct from returned errors.
* `strconv.Atoi` is modelled by `atoi`, including its 64-bit range check
  (both the syntax and the range failure surface as the same Go behaviour:
  a non-nil error, modelled as `Err.atoiError`).
* The yaml text parser (`yaml.Unmarshal`, an external collaborator) is a
  parameter `parse : String → Except Err Node` of every operation that can
  meet a `~{...}` predicate token; concrete instances use `specParse`.
* `isTreeSubset` lives in a repository file that is not part of `src/`;
  it is modelled from the spec (see its doc comment).
-/

namespace Yptr

/-- The node kinds of `yaml.Node` (`yaml.DocumentNode`, `SequenceNode`,
`MappingNode`, `ScalarNode`, `AliasNode`). -/
inductive Kind where
  | document
  | sequence
  | mapping
  | scalar
  | aliasNode
deriving DecidableEq

/-- A yaml tree node: `Kind`, `Tag`, `Value` and the ordered `Content`
children, exactly the fields of `yaml.Node` that the resolver and the
inserter read or write. -/
inductive Node where
  | mk (kind : Kind) (tag : String) (value : String) (content : List Node)

/-- `n.Kind`. -/
def Node.kind : Node → Kind
  | .mk k _ _ _ => k

/-- `n.Tag`. -/
def Node.tag : Node → String
  | .mk _ t _ _ => t

/-- `n.Value`. -/
def Node.value : Node → String
  | .mk _ _ v _ => v

/-- `n.Content`. -/
def Node.content : Node → List Node
  | .mk _ _ _ c => c

/-- The node with its content replaced: renders an in-place update of the
`Content` slice of a Go node (kind, tag and value are untouched). -/
def Node.withContent : Node → List Node → Node
  | .mk k t v _, c => .mk k t v c

/-- The distinct error values the Go code creates (each `fmt.Errorf` call
site gets one constructor; `%w`-wrapping with the pointer string at
`FindAll` is `withPointer`). -/
inductive Err where
  /-- `FindAll`: "invalid empty pointer". -/
  | invalidEmptyPointer
  /-- `ValidateJSONPointer`: pointer neither empty nor starting with `/`. -/
  | syntaxError
  /-- `match`: `"%q: not found"` wrapping `ErrNotFound`. -/
  | notFound (tok : String)
  /-- `Find`: `"got %d matches"` wrapping `ErrTooManyResults`. -/
  | tooManyResults (n : Nat)
  /-- `Find`: "bad state while finding %q: res is empty but error is: %v". -/
  | badState (ptr : String)
  /-- `match` / `sequenceInsertAt`: "out of bounds". -/
  | outOfBounds
  /-- a non-nil error returned by `strconv.Atoi` (syntax or range). -/
  | atoiError (tok : String)
  /-- `match`: "yaml.Node invariant broken, found %d map content". -/
  | malformedTree (n : Nat)
  /-- `match` / `insert`: "unhandled node type: %v (%v)". -/
  | unhandledNodeType (kind : Kind) (tag : String)
  /-- `insert`: "cannot insert node type %v (%v) in node type %v (%v)". -/
  | cannotInsert (vkind : Kind) (vtag : String) (rkind : Kind) (rtag : String)
  /-- a non-nil error returned by `yaml.Unmarshal` on a predicate snippet. -/
  | parseError (s : String)
  /-- `FindAll`: `fmt.Errorf("%q: %w", ptr, err)`. -/
  | withPointer (ptr : String) (e : Err)

/-- Outcome of running a piece of the Go code: a runtime panic (slice
index out of range), a returned error, or a normal result. -/
inductive Res (α : Type) where
  | panic
  | error (e : Err)
  | ok (a : α)

/-- Map over the normal result. -/
def Res.map {α β : Type} (f : α → β) : Res α → Res β
  | .panic => .panic
  | .error e => .error e
  | .ok a => .ok (f a)

/-- `true` exactly on `withPointer` errors (used to state whether pointer
context was attached). -/
def Err.hasPointerContext : Err → Bool
  | .withPointer _ _ => true
  | _ => false

/-- The digit characters `0`-`9`. -/
def isDigitChar (c : Char) : Bool :=
  '0' ≤ c && c ≤ '9'

/-- Numeric value of a digit string (most significant first). -/
def digitsVal (cs : List Char) : Nat :=
  cs.foldl (fun a c => a * 10 + (c.toNat - 48)) 0

/-- `strconv.Atoi`: optional sign, at least one digit, no other characters,
and the value must fit in a signed 64-bit int; any failure is the non-nil
error the call sites test (`Err.atoiError`). -/
def atoi (s : String) : Except Err Int :=
  let cs := s.toList
  let signDigits : Bool × List Char :=
    match cs with
    | '-' :: rest => (true, rest)
    | '+' :: rest => (false, rest)
    | _ => (false, cs)
  match signDigits with
  | (neg, ds) =>
    if ds.isEmpty then .error (.atoiError s)
    else if ds.all isDigitChar then
      let v : Int := if neg then -(digitsVal ds : Int) else (digitsVal ds : Int)
      if v < -(2 ^ 63) || 2 ^ 63 - 1 < v then .error (.atoiError s)
      else .ok v
    else .error (.atoiError s)

/-- `strings.HasPrefix(tok, "~{")`. -/
def isPredTok (tok : String) : Bool :=
  match tok.toList with
  | '~' :: '\x7b' :: _ => true
  | _ => false

/-- `tok[1:]`: everything after the leading `~` of a predicate token. -/
def predBody (tok : String) : String :=
  String.mk tok.toList.tail

/-- The map-content scan of `match`: walk the interleaved
`[key₀, value₀, key₁, value₁, …]` list and return the value of the first
pair whose key's scalar `Value` equals `tok`. -/
def findPair : List Node → String → Option Node
  | k :: v :: rest, tok => if tok == k.value then some v else findPair rest tok
  | _, _ => none

/-- The interleaved content of a mapping, as a list of (key, value) pairs
(a trailing odd element is ignored). -/
def pairsOf : List Node → List (Node × Node)
  | k :: v :: rest => (k, v) :: pairsOf rest
  | _ => []

/-- Modelled from the spec: the repository's `isTreeSubset` (the Subset
Predicate) is defined in a source file that is not under `src/`; only its
caller `treeSubsetPred` appears in `yptr.go`.  Following spec §4.3:
a Scalar pattern matches a Scalar candidate with equal `value`; a Mapping
pattern matches a Mapping candidate in which every pattern pair has a
same-named key whose value recursively matches (extra candidate keys are
ignored); a Sequence pattern matches a Sequence candidate of equal length
pointwise; every other kind combination is `false`. -/
def isTreeSubset : Node → Node → Bool
  | Node.mk .scalar _ va _, b =>
    (match b.kind with | .scalar => true | _ => false) && va == b.value
  | Node.mk .mapping _ _ ca, b =>
    (match b.kind with | .mapping => true | _ => false) &&
    ((pairsOf ca).attach.all fun kv =>
      (pairsOf b.content).any fun kv2 =>
        kv2.1.value == kv.1.1.value && isTreeSubset kv.1.2 kv2.2)
  | Node.mk .sequence _ _ ca, b =>
    (match b.kind with | .sequence => true | _ => false) &&
    (ca.length == b.content.length) &&
    ((ca.attach.zip b.content).all fun xy => isTreeSubset xy.1.1 xy.2)
  | _, _ => false
termination_by a _ => sizeOf a
decreasing_by
  · have hm : sizeOf kv.1.2 < sizeOf ca := by
      have h := kv.2
      obtain ⟨⟨k, v⟩, h2⟩ := kv
      simp only at h ⊢
      clear h2
      induction ca using pairsOf.induct with
      | case1 k' v' rest ih =>
        simp only [pairsOf, List.mem_cons, Prod.mk.injEq] at h
        rcases h with ⟨_, hv⟩ | h2
        · subst hv; simp; omega
        · have := ih (by simpa using h2); simp; omega
      | case2 c hne => simp [pairsOf] at h
    simp
    omega
  · have hm : sizeOf xy.1.1 < sizeOf ca := by
      have h := xy.1.2
      exact List.sizeOf_lt_of_mem h
    simp
    omega

/-- The synthetic append-sentinel `yaml.Node{Kind: yaml.ScalarNode}` that
`match` returns for the `-` token: empty tag, empty value, no content. -/
def sentinelNode : Node :=
  Node.mk .scalar "" "" []

section WithParser

variable (parse : String → Except Err Node)

/-- `match(root, tok)` from `yptr.go`: resolve one token against one node.
`parse` stands for the external `yaml.Unmarshal` used on `~{...}` predicate
snippets.  A `Document` node with empty content panics in Go on `c[0]`. -/
def matchTok : Node → String → Res (List Node)
  | Node.mk .mapping _ _ c, tok =>
    if c.length % 2 != 0 then .error (.malformedTree c.length)
    else
      match findPair c tok with
      | some v => .ok [v]
      | none => .error (.notFound tok)
  | Node.mk .sequence _ _ c, tok =>
    if isPredTok tok then
      match parse (predBody tok) with
      | .error e => .error e
      | .ok mtree => .ok (c.filter fun b => isTreeSubset mtree b)
    else if tok == "-" then .ok [sentinelNode]
    else
      match atoi tok with
      | .error e => .error e
      | .ok i =>
        if i < 0 then .error .outOfBounds
        else if h : i.toNat < c.length then .ok [c.get ⟨i.toNat, h⟩]
        else .error .outOfBounds
  | Node.mk .document _ _ (c0 :: _), tok => matchTok c0 tok
  | Node.mk .document _ _ [], _ => .panic
  | root, _ => .error (.unhandledNodeType root.kind root.tag)

/-- The `for _, n := range next { … res = append(res, f...) }` loop of
`find`: run each sub-resolution in order, stopping at the first failure,
and concatenate the results. -/
def joinResults : List (Res (List Node)) → Res (List Node)
  | [] => .ok []
  | r :: rs =>
    match r with
    | .panic => .panic
    | .error e => .error e
    | .ok f =>
      match joinResults rs with
      | .panic => .panic
      | .error e => .error e
      | .ok rest => .ok (f ++ rest)

/-- `find(root, toks)` from `yptr.go`.  Note the Go code reads `toks[0]`
before any emptiness test, so an empty token list is a runtime panic. -/
def find : Node → List String → Res (List Node)
  | _, [] => .panic
  | root, t :: ts =>
    match matchTok parse root t with
    | .panic => .panic
    | .error e => .error e
    | .ok next =>
      match ts with
      | [] => .ok next
      | _ :: _ => joinResults (next.map fun n => find n ts)

end WithParser

/-- `ValidateJSONPointer`: empty is fine, otherwise the pointer must start
with `/`. -/
def ValidateJSONPointer (ptr : String) : Except Err Unit :=
  if ptr == "" then .ok ()
  else
    match ptr.toList with
    | '/' :: _ => .ok ()
    | _ => .error .syntaxError

/-- `strings.Split(s, "/")` over the character list: maximal runs between
`/` separators, with empty runs kept (`""` gives `[""]`, `"/"` gives
`["", ""]`). -/
def splitSlash : List Char → List (List Char)
  | [] => [[]]
  | c :: rest =>
    if c = '/' then [] :: splitSlash rest
    else
      match splitSlash rest with
      | chunk :: chunks => (c :: chunk) :: chunks
      | [] => [[c]]

/-- Inverse of `splitSlash`: interleave `/` between the chunks. -/
def joinSlash : List (List Char) → List Char
  | [] => []
  | [chunk] => chunk
  | chunk :: chunks => chunk ++ '/' :: joinSlash chunks

/-- The canonical pointer string whose tokens are `toks`: a leading `/`
then the tokens joined by `/`. -/
def renderPtr (toks : List String) : String :=
  String.mk (joinSlash ([] :: toks.map String.toList))

/-- `jsonPointerToTokens`: empty pointer gives no tokens; otherwise
validate and split on `/`, dropping the first (empty) component produced
by the leading separator. -/
def jsonPointerToTokens (ptr : String) : Except Err (List String) :=
  if ptr == "" then .ok []
  else
    match ValidateJSONPointer ptr with
    | .error e => .error e
    | .ok _ => .ok (((splitSlash ptr.toList).map fun cs => String.mk cs).tail)

section WithParser2

variable (parse : String → Except Err Node)

/-- `FindAll(root, ptr)`: reject the empty pointer, tokenize, resolve, and
wrap a resolution error with the pointer string. -/
def FindAll (root : Node) (ptr : String) : Res (List Node) :=
  if ptr == "" then .error .invalidEmptyPointer
  else
    match jsonPointerToTokens ptr with
    | .error e => .error e
    | .ok toks =>
      match find parse root toks with
      | .panic => .panic
      | .error e => .error (.withPointer ptr e)
      | .ok res => .ok res

/-- `Find(root, ptr)`: like `FindAll` but demanding exactly one result;
more than one is `ErrTooManyResults`, zero (with no error) is the
"bad state" internal-consistency error. -/
def Find (root : Node) (ptr : String) : Res Node :=
  match FindAll parse root ptr with
  | .panic => .panic
  | .error e => .error e
  | .ok res =>
    if res.length > 1 then .error (.tooManyResults res.length)
    else
      match res with
      | [] => .error (.badState ptr)
      | r :: _ => .ok r

end WithParser2

/-- `sequenceInsertAt(root, tok, n)`: `-` appends `n` to the content;
otherwise parse `tok` as an index and `slices.Insert` `n` at that
position, rejecting out-of-range indices. -/
def sequenceInsertAt (root : Node) (tok : String) (n : Node) : Res Node :=
  if tok == "-" then .ok (root.withContent (root.content ++ [n]))
  else
    match atoi tok with
    | .error e => .error e
    | .ok i =>
      if i < 0 || root.content.length ≤ i then .error .outOfBounds
      else .ok (root.withContent (root.content.insertIdx i.toNat n))

/-- The value-replacement companion of the `findPair` scan: replace the
value of the first pair whose key's `Value` equals `tok` (this is the
position behind the `*yaml.Node` pointer that `match` hands to the
inserter, so mutating through that pointer is replacing here). -/
def mapReplaceValue : List Node → String → Node → List Node
  | k :: v :: rest, tok, n =>
    if tok == k.value then k :: n :: rest
    else k :: v :: mapReplaceValue rest tok n
  | l, _, _ => l

/-- First index satisfying a predicate. -/
def firstIdxWhere (p : Node → Bool) : List Node → Option Nat
  | [] => none
  | x :: xs =>
    if p x then some 0
    else
      match firstIdxWhere p xs with
      | some i => some (i + 1)
      | none => none

section WithParser3

variable (parse : String → Except Err Node)

/-- The position in a sequence's content that the element returned by
`match` for `tok` occupies: for a numeric token its index, for a predicate
token the index of the first subset match, and `none` for `-` (the
sentinel is not an element).  This is the functional rendering of the
pointer identity of `next[0]` inside `sequenceInsert`. -/
def seqSelIdx (c : List Node) (tok : String) : Option Nat :=
  if isPredTok tok then
    match parse (predBody tok) with
    | .error _ => none
    | .ok mtree => firstIdxWhere (fun b => isTreeSubset mtree b) c
  else if tok == "-" then none
  else
    match atoi tok with
    | .error _ => none
    | .ok i => if 0 ≤ i && i.toNat < c.length then some i.toNat else none

/-- `insert(root, toks, value)` from `yptr.go`, with the bodies of its two
helpers `sequenceInsert` and `mapInsert` inlined at their call sites (the
definitions `sequenceInsert` and `mapInsert` below state the helpers
separately; `insert_dispatch` proves this body is their dispatch).

Terminal case: mapping-into-mapping appends the value's pairs; a
non-mapping value replaces an empty mapping; anything else is the
`CannotInsert` error.  A sequence target resolves `toks[0]`, inserts at
the last token, recurses into a matched non-scalar element, or —
whenever `next[0]` is a Scalar — synthesizes a `{toks[1]: {}}` mapping,
inserts it at the position of `toks[0]`, and continues inside it.  A
mapping target recurses into the matched value, or on `ErrNotFound`
appends a new key with the value (last token) or with a placeholder
mapping that the remaining tokens are inserted into.  `next[0]` on an
empty match list is a Go panic. -/
def insert : Node → List String → Node → Res Node
  | root, [], value =>
    match root.kind, value.kind with
    | .mapping, .mapping => .ok (root.withContent (root.content ++ value.content))
    | .mapping, _ =>
      if root.content.isEmpty then .ok value
      else .error (.cannotInsert value.kind value.tag root.kind root.tag)
    | _, _ => .error (.cannotInsert value.kind value.tag root.kind root.tag)
  | root, t :: ts, value =>
    match root.kind with
    | .sequence =>
      match matchTok parse root t with
      | .panic => .panic
      | .error e => .error e
      | .ok next =>
        match ts with
        | [] => sequenceInsertAt root t value
        | t2 :: _ =>
          match next with
          | [] => .panic
          | n0 :: _ =>
            match n0.kind with
            | .scalar =>
              let k := Node.mk .scalar "!!str" t2 []
              let v := Node.mk .mapping "!!map" "" []
              let n := Node.mk .mapping "!!map" "" [k, v]
              match sequenceInsertAt root t n with
              | .panic => .panic
              | .error e => .error e
              | .ok _ =>
                match insert n ts value with
                | .panic => .panic
                | .error e => .error e
                | .ok n2 => sequenceInsertAt root t n2
            | _ =>
              match insert n0 ts value with
              | .panic => .panic
              | .error e => .error e
              | .ok n0' =>
                match seqSelIdx parse root.content t with
                | some idx => .ok (root.withContent (root.content.set idx n0'))
                | none => .panic
    | .mapping =>
      match matchTok parse root t with
      | .panic => .panic
      | .error (.notFound _) =>
        let k := Node.mk .scalar "" t []
        match ts with
        | [] => .ok (root.withContent (root.content ++ [k, value]))
        | _ :: _ =>
          let v := Node.mk .mapping "!!map" "" []
          match insert v ts value with
          | .panic => .panic
          | .error e => .error e
          | .ok v' => .ok (root.withContent (root.content ++ [k, v']))
      | .error e => .error e
      | .ok [] => .panic
      | .ok (n0 :: _) =>
        match insert n0 ts value with
        | .panic => .panic
        | .error e => .error e
        | .ok n0' => .ok (root.withContent (mapReplaceValue root.content t n0'))
    | _ => .error (.unhandledNodeType root.kind root.tag)

/-- `sequenceInsert(root, toks, value)` from `yptr.go`, stated with `insert`
for its recursive continuation. -/
def sequenceInsert (root : Node) (toks : List String) (value : Node) : Res Node :=
  match toks with
  | [] => .panic
  | t :: ts =>
    match matchTok parse root t with
    | .panic => .panic
    | .error e => .error e
    | .ok next =>
      match ts with
      | [] => sequenceInsertAt root t value
      | t2 :: _ =>
        match next with
        | [] => .panic
        | n0 :: _ =>
          match n0.kind with
          | .scalar =>
            let k := Node.mk .scalar "!!str" t2 []
            let v := Node.mk .mapping "!!map" "" []
            let n := Node.mk .mapping "!!map" "" [k, v]
            match sequenceInsertAt root t n with
            | .panic => .panic
            | .error e => .error e
            | .ok _ =>
              match insert parse n ts value with
              | .panic => .panic
              | .error e => .error e
              | .ok n2 => sequenceInsertAt root t n2
          | _ =>
            match insert parse n0 ts value with
            | .panic => .panic
            | .error e => .error e
            | .ok n0' =>
              match seqSelIdx parse root.content t with
              | some idx => .ok (root.withContent (root.content.set idx n0'))
              | none => .panic

/-- `mapInsert(root, toks, value)` from `yptr.go`, stated with `insert`
for its recursive continuation. -/
def mapInsert (root : Node) (toks : List String) (value : Node) : Res Node :=
  match toks with
  | [] => .panic
  | t :: ts =>
    match matchTok parse root t with
    | .panic => .panic
    | .error (.notFound _) =>
      let k := Node.mk .scalar "" t []
      match ts with
      | [] => .ok (root.withContent (root.content ++ [k, value]))
      | _ :: _ =>
        let v := Node.mk .mapping "!!map" "" []
        match insert parse v ts value with
        | .panic => .panic
        | .error e => .error e
        | .ok v' => .ok (root.withContent (root.content ++ [k, v']))
    | .error e => .error e
    | .ok [] => .panic
    | .ok (n0 :: _) =>
      match insert parse n0 ts value with
      | .panic => .panic
      | .error e => .error e
      | .ok n0' => .ok (root.withContent (mapReplaceValue root.content t n0'))

/-- `Insert(root, ptr, value)`: tokenize, strip one `Document` wrapper from
the value and from the root (Go reads `Content[0]`, a panic when absent;
the root's wrapper is re-attached around the mutated child, since Go
mutates in place underneath it), then run `insert`. -/
def Insert (root : Node) (ptr : String) (value : Node) : Res Node :=
  match jsonPointerToTokens ptr with
  | .error e => .error e
  | .ok toks =>
    match
      (match value.kind with
       | .document =>
         match value.content with
         | [] => .panic
         | v0 :: _ => .ok v0
       | _ => .ok value : Res Node) with
    | .panic => .panic
    | .error e => .error e
    | .ok value' =>
      match root.kind with
      | .document =>
        match root.content with
        | [] => .panic
        | c0 :: crest =>
          match insert parse c0 toks value' with
          | .panic => .panic
          | .error e => .error e
          | .ok c0' => .ok (root.withContent (c0' :: crest))
      | _ => insert parse root toks value'

end WithParser3

/-- Decimal digits of `n` (most significant first) prepended to `acc`;
fuel-driven so that it evaluates definitionally, `fuel = n` always
suffices. -/
def natDecCharsAux : Nat → Nat → List Char → List Char
  | 0, _, acc => acc
  | fuel + 1, n, acc =>
    if n = 0 then acc
    else natDecCharsAux fuel (n / 10) (Char.ofNat (48 + n % 10) :: acc)

/-- Decimal rendering of a natural number, used to write down the concrete
resolved index that a `-` or predicate token stood for. -/
def natToDecimal (n : Nat) : String :=
  if n = 0 then "0" else String.mk (natDecCharsAux n n [])

mutual

/-- Every content list in the tree is shorter than `2^63` (vacuously true
for any tree a Go process can hold; it makes resolved indices
re-parseable by `atoi`'s 64-bit range check). -/
def smallNode : Node → Bool
  | .mk _ _ _ c => decide (c.length < 2 ^ 63) && smallNodes c

/-- `smallNode` on every element. -/
def smallNodes : List Node → Bool
  | [] => true
  | n :: rest => smallNode n && smallNodes rest

end

/-- What one successful insertion did: the updated tree, the concrete
resolved token path (indices substituted for `-`/predicate tokens), the
node now sitting at that path, and whether the terminal step merged the
value's pairs into an existing mapping (rather than writing the value
itself). -/
structure InsOut where
  tree : Node
  rtoks : List String
  written : Node
  merged : Bool

section WithParser4

variable (parse : String → Except Err Node)

/-- `insert` instrumented with the resolved path: identical control flow
and tree result (see `insertR_tree`), additionally returning which
concrete tokens the walk resolved to, the node left at that location, and
whether the terminal step was the mapping-merge case. -/
def insertR : Node → List String → Node → Res InsOut
  | root, [], value =>
    match root.kind, value.kind with
    | .mapping, .mapping =>
      .ok ⟨root.withContent (root.content ++ value.content), [],
           root.withContent (root.content ++ value.content), true⟩
    | .mapping, _ =>
      if root.content.isEmpty then .ok ⟨value, [], value, false⟩
      else .error (.cannotInsert value.kind value.tag root.kind root.tag)
    | _, _ => .error (.cannotInsert value.kind value.tag root.kind root.tag)
  | root, t :: ts, value =>
    match root.kind with
    | .sequence =>
      match matchTok parse root t with
      | .panic => .panic
      | .error e => .error e
      | .ok next =>
        match ts with
        | [] =>
          if t == "-" then
            .ok ⟨root.withContent (root.content ++ [value]),
                 [natToDecimal root.content.length], value, false⟩
          else
            match sequenceInsertAt root t value with
            | .panic => .panic
            | .error e => .error e
            | .ok root' => .ok ⟨root', [t], value, false⟩
        | t2 :: _ =>
          match next with
          | [] => .panic
          | n0 :: _ =>
            match n0.kind with
            | .scalar =>
              let k := Node.mk .scalar "!!str" t2 []
              let v := Node.mk .mapping "!!map" "" []
              let n := Node.mk .mapping "!!map" "" [k, v]
              match sequenceInsertAt root t n with
              | .panic => .panic
              | .error e => .error e
              | .ok _ =>
                match insertR n ts value with
                | .panic => .panic
                | .error e => .error e
                | .ok r =>
                  match sequenceInsertAt root t r.tree with
                  | .panic => .panic
                  | .error e => .error e
                  | .ok root2 =>
                    .ok ⟨root2,
                         (if t == "-" then natToDecimal root.content.length else t)
                           :: r.rtoks,
                         r.written, r.merged⟩
            | _ =>
              match insertR n0 ts value with
              | .panic => .panic
              | .error e => .error e
              | .ok r =>
                match seqSelIdx parse root.content t with
                | some idx =>
                  .ok ⟨root.withContent (root.content.set idx r.tree),
                       (if isPredTok t then natToDecimal idx else t) :: r.rtoks,
                       r.written, r.merged⟩
                | none => .panic
    | .mapping =>
      match matchTok parse root t with
      | .panic => .panic
      | .error (.notFound _) =>
        let k := Node.mk .scalar "" t []
        match ts with
        | [] =>
          .ok ⟨root.withContent (root.content ++ [k, value]), [t], value, false⟩
        | _ :: _ =>
          let v := Node.mk .mapping "!!map" "" []
          match insertR v ts value with
          | .panic => .panic
          | .error e => .error e
          | .ok r =>
            .ok ⟨root.withContent (root.content ++ [k, r.tree]),
                 t :: r.rtoks, r.written, r.merged⟩
      | .error e => .error e
      | .ok [] => .panic
      | .ok (n0 :: _) =>
        match insertR n0 ts value with
        | .panic => .panic
        | .error e => .error e
        | .ok r =>
          .ok ⟨root.withContent (mapReplaceValue root.content t r.tree),
               t :: r.rtoks, r.written, r.merged⟩
    | _ => .error (.unhandledNodeType root.kind root.tag)

/-- `Insert` instrumented with the resolved path (same wrapping as
`Insert`, see `InsertR_tree`). -/
def InsertR (root : Node) (ptr : String) (value : Node) : Res InsOut :=
  match jsonPointerToTokens ptr with
  | .error e => .error e
  | .ok toks =>
    match
      (match value.kind with
       | .document =>
         match value.content with
         | [] => .panic
         | v0 :: _ => .ok v0
       | _ => .ok value : Res Node) with
    | .panic => .panic
    | .error e => .error e
    | .ok value' =>
      match root.kind with
      | .document =>
        match root.content with
        | [] => .panic
        | c0 :: crest =>
          match insertR parse c0 toks value' with
          | .panic => .panic
          | .error e => .error e
          | .ok r =>
            .ok ⟨root.withContent (r.tree :: crest), r.rtoks, r.written, r.merged⟩
      | _ => insertR parse root toks value'

end WithParser4

/-- Modelled from the spec: the external collaborator that parses text
into a tree node (§6, used by `match` through `yaml.Unmarshal` on the
bytes after `~` of a predicate token).  It is instantiated only for the
concrete predicate snippets the witnesses below exercise, yielding the
pattern node the snippet describes, and a parse error on any other
input. -/
def specParse : String → Except Err Node
  | "\x7b\x7d" => .ok (Node.mk .mapping "!!map" "" [])
  | "\x7b\"name\":\"app\"\x7d" =>
    .ok (Node.mk .mapping "!!map" ""
      [Node.mk .scalar "!!str" "name" [], Node.mk .scalar "!!str" "app" []])
  | s => .error (.parseError s)

/-- A `!!str` scalar node, as the yaml parser builds for a plain string. -/
def strN (v : String) : Node := .mk .scalar "!!str" v []

/-- An `!!int` scalar node. -/
def intN (v : String) : Node := .mk .scalar "!!int" v []

/-- A `!!map` mapping node with interleaved key/value content. -/
def mapN (c : List Node) : Node := .mk .mapping "!!map" "" c

/-- A `!!seq` sequence node. -/
def seqN (c : List Node) : Node := .mk .sequence "!!seq" "" c

/-- A document node wrapping one child, as the yaml parser returns. -/
def docN (n : Node) : Node := .mk .document "" "" [n]

/-! ## Theorems -/

/-- A token is a predicate token exactly when its text starts with `~{`. -/
theorem isPredTok_eq_true_iff (t : String) :
    isPredTok t = true ↔ ∃ rest, t.toList = '~' :: '\x7b' :: rest := by
  unfold isPredTok
  constructor
  · intro h
    split at h
    · next heq => exact ⟨_, heq⟩
    · exact absurd h (by simp)
  · rintro ⟨rest, hr⟩
    rw [hr]
    rfl

/-- `strconv.Atoi` rejects every predicate token (its first character `~`
is neither a sign nor a digit). -/
theorem atoi_of_predTok (t : String) (hp : isPredTok t = true) :
    atoi t = .error (.atoiError t) := by
  obtain ⟨rest, hr⟩ := (isPredTok_eq_true_iff t).mp hp
  have hr' : t.data = '~' :: '\x7b' :: rest := hr
  have hsign :
      (match t.data with
        | '-' :: rest => ((true : Bool), rest)
        | '+' :: rest => ((false : Bool), rest)
        | _ => ((false : Bool), t.data)) = (false, t.data) := by
    rw [hr']
    rfl
  simp only [atoi, String.toList, hsign]
  rw [hr']
  simp [isDigitChar]

/-- A predicate token is not the append token. -/
theorem predTok_ne_dash (t : String) (hp : isPredTok t = true) : t ≠ "-" := by
  obtain ⟨rest, hr⟩ := (isPredTok_eq_true_iff t).mp hp
  intro he
  subst he
  rw [show "-".toList = ['-'] from rfl] at hr
  injection hr with h1 _
  exact absurd h1 (by decide)

/-- A token accepted by `atoi` is neither a predicate token nor `-`. -/
theorem atoi_ok_shape (t : String) (i : Int) (h : atoi t = .ok i) :
    isPredTok t = false ∧ t ≠ "-" := by
  constructor
  · by_contra hp
    simp only [Bool.not_eq_false] at hp
    rw [atoi_of_predTok t hp] at h
    exact Except.noConfusion h
  · intro he
    subst he
    simp [atoi] at h

/-- `match` on a sequence: a token starting `~{` whose snippet parses
filters the content by the subset predicate. -/
theorem matchTok_mk_seq_pred (parse : String → Except Err Node)
    (tg v : String) (c : List Node) (tok : String) (m : Node)
    (hp : isPredTok tok = true) (hparse : parse (predBody tok) = .ok m) :
    matchTok parse (.mk .sequence tg v c) tok =
      .ok (c.filter fun b => isTreeSubset m b) := by
  simp [matchTok, hp, hparse]

/-- `match` on a sequence: a failing predicate-snippet parse propagates. -/
theorem matchTok_mk_seq_pred_err (parse : String → Except Err Node)
    (tg v : String) (c : List Node) (tok : String) (e : Err)
    (hp : isPredTok tok = true) (hparse : parse (predBody tok) = .error e) :
    matchTok parse (.mk .sequence tg v c) tok = .error e := by
  simp [matchTok, hp, hparse]

/-- `match` on a sequence: the `-` token yields the append sentinel. -/
theorem matchTok_mk_seq_dash (parse : String → Except Err Node)
    (tg v : String) (c : List Node) :
    matchTok parse (.mk .sequence tg v c) "-" = .ok [sentinelNode] := rfl

/-- `match` on a sequence: an in-range index token yields that element. -/
theorem matchTok_mk_seq_idx (parse : String → Except Err Node)
    (tg v : String) (c : List Node) (tok : String) (i : Int)
    (h : atoi tok = .ok i) (h0 : 0 ≤ i) (hlt : i.toNat < c.length) :
    matchTok parse (.mk .sequence tg v c) tok = .ok [c.get ⟨i.toNat, hlt⟩] := by
  obtain ⟨hp, hd⟩ := atoi_ok_shape tok i h
  simp [matchTok, hp, hd, h, hlt, not_lt.mpr h0]

/-- `match` on a sequence: an out-of-range index token is OutOfBounds. -/
theorem matchTok_mk_seq_idx_oob (parse : String → Except Err Node)
    (tg v : String) (c : List Node) (tok : String) (i : Int)
    (h : atoi tok = .ok i) (hoob : i < 0 ∨ c.length ≤ i.toNat) :
    matchTok parse (.mk .sequence tg v c) tok = .error .outOfBounds := by
  obtain ⟨hp, hd⟩ := atoi_ok_shape tok i h
  rcases hoob with hneg | hge
  · simp [matchTok, hp, hd, h, hneg]
  · simp [matchTok, hp, hd, h, not_lt.mpr hge]

/-- `match` on a sequence: a token that is not `-`, not a predicate, and
not a number returns the `Atoi` error. -/
theorem matchTok_mk_seq_atoi_err (parse : String → Except Err Node)
    (tg v : String) (c : List Node) (tok : String) (e : Err)
    (h : atoi tok = .error e) (hp : isPredTok tok = false) (hd : tok ≠ "-") :
    matchTok parse (.mk .sequence tg v c) tok = .error e := by
  simp [matchTok, hp, hd, h]

/-- `pairsOf` distributes over appending to an even-length prefix: merged
mapping content keeps every pair of both sides, in order. -/
theorem pairsOf_append_of_even :
    ∀ (a b : List Node), a.length % 2 = 0 →
      pairsOf (a ++ b) = pairsOf a ++ pairsOf b
  | [], _, _ => rfl
  | [_], _, h => by simp at h
  | k :: v :: rest, b, h => by
    have hr : rest.length % 2 = 0 := by
      simp only [List.length_cons] at h
      omega
    calc pairsOf ((k :: v :: rest) ++ b)
        = (k, v) :: pairsOf (rest ++ b) := rfl
      _ = (k, v) :: (pairsOf rest ++ pairsOf b) := by
          rw [pairsOf_append_of_even rest b hr]
      _ = pairsOf (k :: v :: rest) ++ pairsOf b := rfl

/-- C2 (confirmed): terminal insertion (no tokens left): a Mapping value
into a Mapping target appends every pair of the value's content in order
(duplicate keys are kept — `pairsOf` of the result is the concatenation of
both pair lists); a non-Mapping value replaces a Mapping target with empty
content; every other combination returns the `CannotInsert` error naming
both kinds and tags. -/
theorem c2_insert_terminal_spec (parse : String → Except Err Node) (root value : Node) :
    (root.kind = .mapping → value.kind = .mapping →
      insert parse root [] value = .ok (root.withContent (root.content ++ value.content)) ∧
      (root.content.length % 2 = 0 →
        pairsOf (root.content ++ value.content) =
          pairsOf root.content ++ pairsOf value.content)) ∧
    (root.kind = .mapping → value.kind ≠ .mapping → root.content = [] →
      insert parse root [] value = .ok value) ∧
    (root.kind ≠ .mapping ∨ (value.kind ≠ .mapping ∧ root.content ≠ []) →
      insert parse root [] value =
        .error (.cannotInsert value.kind value.tag root.kind root.tag)) := by
  obtain ⟨rk, rt, rv, rc⟩ := root
  obtain ⟨vk, vt, vv, vc⟩ := value
  refine ⟨fun h1 h2 => ?_, fun h1 h2 h3 => ?_, fun h => ?_⟩
  · simp only [Node.kind] at h1 h2
    subst h1; subst h2
    exact ⟨rfl, fun hp => pairsOf_append_of_even _ _ hp⟩
  · simp only [Node.kind] at h1 h2
    subst h1
    simp only [Node.content] at h3
    subst h3
    cases vk <;> simp_all [insert, Node.kind, Node.content]
  · simp only [Node.kind, Node.content] at h
    rcases h with h | ⟨h1, h2⟩
    · cases rk <;> cases vk <;> simp_all [insert, Node.kind]
    · cases rk <;> cases vk <;>
        simp_all [insert, Node.kind, Node.content, List.isEmpty_iff]

/-- C2 witness: a duplicate-key merge (both `a` entries persist), an
empty-mapping replacement, and a `CannotInsert` rejection. -/
theorem c2_insert_terminal_spec_witness :
    insert specParse (mapN [strN "a", strN "1"]) [] (mapN [strN "a", strN "2"]) =
      .ok (mapN [strN "a", strN "1", strN "a", strN "2"]) ∧
    insert specParse (mapN []) [] (strN "x") = .ok (strN "x") ∧
    insert specParse (seqN []) [] (strN "x") =
      .error (.cannotInsert .scalar "!!str" .sequence "!!seq") :=
  ⟨((c2_insert_terminal_spec specParse (mapN [strN "a", strN "1"])
        (mapN [strN "a", strN "2"])).1 rfl rfl).1,
   (c2_insert_terminal_spec specParse (mapN []) (strN "x")).2.1 rfl (by decide) rfl,
   (c2_insert_terminal_spec specParse (seqN []) (strN "x")).2.2 (Or.inl (by decide))⟩

/-- C4 counterexample: a predicate token that matches zero elements makes
`FindAll` return the empty result list with no error (here: any predicate
against an empty sequence), and `Find` then reaches its "bad state"
internal-consistency branch — it is not dead code. -/
theorem c4_counterexample :
    FindAll specParse (seqN []) "/~\x7b\x7d" = .ok [] ∧
    Find specParse (seqN []) "/~\x7b\x7d" = .error (.badState "/~\x7b\x7d") :=
  ⟨rfl, rfl⟩

/-- C4 (corrected): `FindAll` can return zero results with no error (a
predicate token with zero matches, see `c4_counterexample`); whenever it
does, `Find` returns the internal-consistency ("bad state") error for
that pointer. -/
theorem c4_zero_results_badState (parse : String → Except Err Node)
    (root : Node) (ptr : String) (h : FindAll parse root ptr = .ok []) :
    Find parse root ptr = .error (.badState ptr) := by
  simp [Find, h]

/-- C4 witness: the zero-result case reached through a document-wrapped
empty sequence. -/
theorem c4_zero_results_badState_witness :
    Find specParse (docN (seqN [])) "/~\x7b\x7d" = .error (.badState "/~\x7b\x7d") :=
  c4_zero_results_badState specParse _ _ rfl

/-- C7 counterexample: an error produced during insertion reaches the
`Insert` caller without any pointer context attached. -/
theorem c7_counterexample :
    Insert specParse (mapN [strN "d", seqN [strN "e"]]) "/d" (strN "x") =
      .error (.cannotInsert .scalar "!!str" .sequence "!!seq") ∧
    Err.hasPointerContext (.cannotInsert .scalar "!!str" .sequence "!!seq") = false :=
  ⟨rfl, rfl⟩

/-- C7 (corrected): resolution errors bubble unchanged up to `FindAll`,
which attaches the pointer string; insertion errors bubble unchanged up to
`Insert`, which returns them as-is — no pointer context is attached
there. -/
theorem c7_error_propagation (parse : String → Except Err Node)
    (root value : Node) (ptr : String) (toks : List String) (e : Err) :
    (ptr ≠ "" → jsonPointerToTokens ptr = .ok toks →
      find parse root toks = .error e →
      FindAll parse root ptr = .error (.withPointer ptr e)) ∧
    (jsonPointerToTokens ptr = .ok toks →
      root.kind ≠ .document → value.kind ≠ .document →
      insert parse root toks value = .error e →
      Insert parse root ptr value = .error e) := by
  constructor
  · intro hne htok hfind
    simp [FindAll, hne, htok, hfind]
  · intro htok hr hv hins
    obtain ⟨rk, rt, rv, rc⟩ := root
    obtain ⟨vk, vt, vv, vc⟩ := value
    simp only [Node.kind] at hr hv
    cases rk <;> cases vk <;> simp_all [Insert, Node.kind]

/-- C7 witness: a not-found lookup error wrapped with its pointer at
`FindAll`, and an out-of-bounds insertion error returned bare by
`Insert`. -/
theorem c7_error_propagation_witness :
    FindAll specParse (mapN []) "/z" = .error (.withPointer "/z" (.notFound "z")) ∧
    Insert specParse (seqN []) "/0" (strN "x") = .error .outOfBounds :=
  ⟨(c7_error_propagation specParse (mapN []) (strN "x") "/z" ["z"] (.notFound "z")).1
      (by decide) rfl rfl,
   (c7_error_propagation specParse (seqN []) (strN "x") "/0" ["0"] .outOfBounds).2
      rfl (by decide) (by decide) rfl⟩

/-- C8 counterexample: `find` on the empty token sequence is the modelled
panic (Go reads `toks[0]` unconditionally), not the singleton result the
claim states. -/
theorem c8_counterexample :
    find specParse (strN "x") [] = .panic ∧
    find specParse (strN "x") [] ≠ .ok [strN "x"] :=
  ⟨rfl, fun h => Res.noConfusion h⟩

/-- C8 (corrected): for every root and parser, `find` applied to an empty
token sequence performs an out-of-range access on `toks[0]` (a runtime
panic) instead of returning `[root]`.  (`FindAll` never invokes it that
way, since it rejects the empty pointer and every non-empty pointer
tokenizes to at least one token.) -/
theorem c8_find_empty_tokens_panics (parse : String → Except Err Node) (root : Node) :
    find parse root [] = .panic := by
  cases root
  rfl

/-- C9 (confirmed): during non-terminal sequence insertion, a token whose
match produces zero candidates (a predicate token matching no element)
leads to the out-of-range access `next[0]` — the modelled panic — rather
than a returned error. -/
theorem c9_predicate_zero_match_panics (parse : String → Except Err Node)
    (root : Node) (t : String) (ts : List String) (value : Node)
    (hk : root.kind = .sequence) (hm : matchTok parse root t = .ok [])
    (hts : ts ≠ []) :
    insert parse root (t :: ts) value = .panic := by
  obtain ⟨rk, rt, rv, rc⟩ := root
  simp only [Node.kind] at hk
  subst hk
  cases ts with
  | nil => exact absurd rfl hts
  | cons t2 ts2 => simp [insert, Node.kind, hm]

/-- C9 witness: inserting through `/~{}/x`-style tokens into an empty
sequence panics. -/
theorem c9_predicate_zero_match_panics_witness :
    insert specParse (seqN []) ["~\x7b\x7d", "x"] (strN "v") = .panic :=
  c9_predicate_zero_match_panics specParse _ _ _ _ rfl rfl (by simp)

/-- C10 (confirmed): on any Sequence node the token `-` matches to the
fresh synthetic empty Scalar (`sentinelNode` — a constant node independent
of the document, not one of its elements), and that sentinel escapes
through `FindAll` and `Find` as a successful result. -/
theorem c10_append_token_sentinel (parse : String → Except Err Node)
    (root : Node) (h : root.kind = .sequence) :
    matchTok parse root "-" = .ok [sentinelNode] ∧
    FindAll parse root "/-" = .ok [sentinelNode] ∧
    Find parse root "/-" = .ok sentinelNode := by
  obtain ⟨rk, rt, rv, rc⟩ := root
  simp only [Node.kind] at h
  subst h
  exact ⟨rfl, rfl, rfl⟩

/-- The handwritten pair scan of `match` computes exactly "first pair
whose key's value equals the token", i.e. `List.find?` over the pair
list. -/
theorem findPair_eq_find? :
    ∀ (c : List Node) (tok : String), c.length % 2 = 0 →
      findPair c tok = ((pairsOf c).find? fun kv => tok == kv.1.value).map Prod.snd
  | [], _, _ => rfl
  | [_], _, h => by simp at h
  | k :: v :: rest, tok, h => by
    have hr : rest.length % 2 = 0 := by
      simp only [List.length_cons] at h
      omega
    simp only [findPair, pairsOf]
    by_cases he : (tok == k.value) = true
    · rw [List.find?_cons_of_pos _ (by simpa using he)]
      simp [he]
    · rw [List.find?_cons_of_neg _ (by simpa using he)]
      simp only [Bool.not_eq_true] at he
      simp [he, findPair_eq_find? rest tok hr]

/-- C6 (confirmed): matching a token against a Mapping: odd content length
is the MalformedTree error; otherwise the result is determined by the
first pair (in order) whose key's scalar value equals the token — its
value as a singleton if one exists, `NotFound` if none does. -/
theorem c6_matchTok_mapping_spec (parse : String → Except Err Node)
    (root : Node) (tok : String) (h : root.kind = .mapping) :
    (root.content.length % 2 ≠ 0 →
      matchTok parse root tok = .error (.malformedTree root.content.length)) ∧
    (root.content.length % 2 = 0 →
      matchTok parse root tok =
        match (pairsOf root.content).find? fun kv => tok == kv.1.value with
        | some kv => .ok [kv.2]
        | none => .error (.notFound tok)) := by
  obtain ⟨rk, rt, rv, rc⟩ := root
  simp only [Node.kind] at h
  subst h
  simp only [Node.content]
  constructor
  · intro hodd
    simp [matchTok, bne_iff_ne, hodd]
  · intro heven
    rw [show matchTok parse (.mk .mapping rt rv rc) tok =
        (if rc.length % 2 != 0 then .error (.malformedTree rc.length)
         else match findPair rc tok with
           | some v => .ok [v]
           | none => .error (.notFound tok)) from rfl]
    simp only [bne, heven]
    rw [findPair_eq_find? rc tok heven]
    cases (pairsOf rc).find? fun kv => tok == kv.1.value <;> simp

/-- C6 witness: odd content is malformed; with a duplicate key the first
pair in order wins; a missing key is NotFound. -/
theorem c6_matchTok_mapping_spec_witness :
    matchTok specParse (Node.mk .mapping "!!map" "" [strN "a"]) "a" =
      .error (.malformedTree 1) ∧
    matchTok specParse (mapN [strN "a", strN "1", strN "a", strN "2"]) "a" =
      .ok [strN "1"] ∧
    matchTok specParse (mapN [strN "a", strN "1"]) "z" =
      .error (.notFound "z") :=
  ⟨(c6_matchTok_mapping_spec specParse (Node.mk .mapping "!!map" "" [strN "a"])
      "a" rfl).1 (by decide),
   (c6_matchTok_mapping_spec specParse (mapN [strN "a", strN "1", strN "a", strN "2"])
      "a" rfl).2 (by decide),
   (c6_matchTok_mapping_spec specParse (mapN [strN "a", strN "1"])
      "z" rfl).2 (by decide)⟩

/-- `slices.Insert` puts the new element at position `i`, keeping the old
occupant and everything after it shifted one to the right. -/
theorem insertIdx_take_drop :
    ∀ (c : List Node) (i : Nat) (x : Node), i ≤ c.length →
      c.insertIdx i x = c.take i ++ x :: c.drop i
  | _, 0, _, _ => by simp
  | [], _ + 1, _, h => by simp at h
  | y :: ys, i + 1, x, h => by
    simp only [List.insertIdx_succ_cons, List.take_succ_cons, List.drop_succ_cons,
      List.cons_append]
    rw [insertIdx_take_drop ys i x (by simpa using h)]

/-- C3 (confirmed): the last token of an insertion into a Sequence:
`-` appends after the last element; an `atoi`-accepted index `i` with
`0 ≤ i < length` inserts at position `i` without replacing the occupant
(the suffix shifts right); an `atoi`-accepted index outside that range is
OutOfBounds; a non-numeric non-`-` token gets the `Atoi` error
(`NotAnIndex`) — including predicate tokens whose snippet parses, which
reach `sequenceInsertAt` and fail its `Atoi` there. -/
theorem c3_sequence_last_token_spec (parse : String → Except Err Node)
    (root : Node) (t : String) (value : Node) (h : root.kind = .sequence) :
    (t = "-" → sequenceInsert parse root [t] value =
      .ok (root.withContent (root.content ++ [value]))) ∧
    (∀ i : Int, atoi t = .ok i → 0 ≤ i → i.toNat < root.content.length →
      sequenceInsert parse root [t] value =
        .ok (root.withContent
          (root.content.take i.toNat ++ value :: root.content.drop i.toNat))) ∧
    (∀ i : Int, atoi t = .ok i → (i < 0 ∨ root.content.length ≤ i.toNat) →
      sequenceInsert parse root [t] value = .error .outOfBounds) ∧
    (∀ e : Err, isPredTok t = false → t ≠ "-" → atoi t = .error e →
      sequenceInsert parse root [t] value = .error e) ∧
    (∀ m : Node, isPredTok t = true → parse (predBody t) = .ok m →
      sequenceInsert parse root [t] value = .error (.atoiError t)) := by
  obtain ⟨rk, rt, rv, rc⟩ := root
  simp only [Node.kind] at h
  subst h
  simp only [Node.content, Node.withContent]
  refine ⟨fun hd => ?_, fun i ha h0 hlt => ?_, fun i ha hoob => ?_,
    fun e hp hd ha => ?_, fun m hp hparse => ?_⟩
  · subst hd
    rfl
  · obtain ⟨hp, hd⟩ := atoi_ok_shape t i ha
    have hne : ¬ (rc.length : Int) ≤ i := by omega
    simp [sequenceInsert, matchTok_mk_seq_idx parse rt rv rc t i ha h0 hlt,
      sequenceInsertAt, hd, ha, not_lt.mpr h0, hne, Node.content, Node.withContent,
      insertIdx_take_drop rc i.toNat value (le_of_lt hlt)]
  · simp [sequenceInsert, matchTok_mk_seq_idx_oob parse rt rv rc t i ha hoob]
  · simp [sequenceInsert, matchTok_mk_seq_atoi_err parse rt rv rc t e ha hp hd]
  · have hd := predTok_ne_dash t hp
    simp [sequenceInsert, matchTok_mk_seq_pred parse rt rv rc t m hp hparse,
      sequenceInsertAt, hd, atoi_of_predTok t hp]

/-- C3 witness: all five outcomes on concrete two-element sequences. -/
theorem c3_sequence_last_token_spec_witness :
    sequenceInsert specParse (seqN [strN "e", strN "f"]) ["-"] (strN "x") =
      .ok (seqN [strN "e", strN "f", strN "x"]) ∧
    sequenceInsert specParse (seqN [strN "e", strN "f"]) ["1"] (strN "x") =
      .ok (seqN [strN "e", strN "x", strN "f"]) ∧
    sequenceInsert specParse (seqN [strN "e", strN "f"]) ["5"] (strN "x") =
      .error .outOfBounds ∧
    sequenceInsert specParse (seqN [strN "e", strN "f"]) ["g"] (strN "x") =
      .error (.atoiError "g") ∧
    sequenceInsert specParse (seqN [strN "e", strN "f"]) ["~\x7b\x7d"] (strN "x") =
      .error (.atoiError "~\x7b\x7d") :=
  ⟨(c3_sequence_last_token_spec specParse (seqN [strN "e", strN "f"]) "-"
      (strN "x") rfl).1 rfl,
   (c3_sequence_last_token_spec specParse (seqN [strN "e", strN "f"]) "1"
      (strN "x") rfl).2.1 1 rfl (by decide) (by decide),
   (c3_sequence_last_token_spec specParse (seqN [strN "e", strN "f"]) "5"
      (strN "x") rfl).2.2.1 5 rfl (Or.inr (by decide)),
   (c3_sequence_last_token_spec specParse (seqN [strN "e", strN "f"]) "g"
      (strN "x") rfl).2.2.2.1 (.atoiError "g") rfl (by decide) rfl,
   (c3_sequence_last_token_spec specParse (seqN [strN "e", strN "f"]) "~\x7b\x7d"
      (strN "x") rfl).2.2.2.2 (mapN []) rfl rfl⟩

/-- If a filter produces `x` first, `firstIdxWhere` finds the position of
`x`: the first satisfying element of the list. -/
theorem firstIdxWhere_of_filter_cons :
    ∀ (cs : List Node) (p : Node → Bool) (x : Node) (xs : List Node),
      cs.filter p = x :: xs →
      ∃ idx, firstIdxWhere p cs = some idx ∧ idx < cs.length ∧ cs[idx]? = some x
  | [], _, _, _, h => by simp at h
  | y :: ys, p, x, xs, h => by
    by_cases hy : p y = true
    · rw [List.filter_cons_of_pos hy] at h
      injection h with h1 _
      subst h1
      exact ⟨0, by simp [firstIdxWhere, hy], by simp, by simp⟩
    · rw [List.filter_cons_of_neg (by simpa using hy)] at h
      obtain ⟨idx, h1, h2, h3⟩ := firstIdxWhere_of_filter_cons ys p x xs h
      refine ⟨idx + 1, ?_, by simpa using Nat.succ_lt_succ h2, by simpa using h3⟩
      simp [firstIdxWhere, hy, h1]

/-- Pointer-identity of `next[0]` inside `sequenceInsert`: whenever the
sequence matcher returns a non-empty candidate list for a non-`-` token,
`seqSelIdx` names a position of the content holding exactly that first
candidate. -/
theorem seqSelIdx_of_match (parse : String → Except Err Node)
    (tg v : String) (cs : List Node) (t : String) (n0 : Node) (rest : List Node)
    (hm : matchTok parse (.mk .sequence tg v cs) t = .ok (n0 :: rest))
    (hd : t ≠ "-") :
    ∃ idx, seqSelIdx parse cs t = some idx ∧ idx < cs.length ∧ cs[idx]? = some n0 := by
  by_cases hp : isPredTok t = true
  · cases hpar : parse (predBody t) with
    | error e =>
      rw [matchTok_mk_seq_pred_err parse tg v cs t e hp hpar] at hm
      exact absurd hm (by simp)
    | ok m =>
      rw [matchTok_mk_seq_pred parse tg v cs t m hp hpar] at hm
      injection hm with hm'
      obtain ⟨idx, h1, h2, h3⟩ := firstIdxWhere_of_filter_cons cs _ n0 rest hm'
      exact ⟨idx, by simp [seqSelIdx, hp, hpar, h1], h2, h3⟩
  · simp only [Bool.not_eq_true] at hp
    cases hatoi : atoi t with
    | error e =>
      rw [matchTok_mk_seq_atoi_err parse tg v cs t e hatoi hp hd] at hm
      exact absurd hm (by simp)
    | ok i =>
      by_cases h0 : i < 0
      · rw [matchTok_mk_seq_idx_oob parse tg v cs t i hatoi (Or.inl h0)] at hm
        exact absurd hm (by simp)
      · by_cases hlt : i.toNat < cs.length
        · rw [matchTok_mk_seq_idx parse tg v cs t i hatoi (not_lt.mp h0) hlt] at hm
          injection hm with hm'
          injection hm' with hx _
          refine ⟨i.toNat, ?_, hlt, ?_⟩
          · simp [seqSelIdx, hp, hatoi, hlt, not_lt.mp h0,
              beq_eq_false_iff_ne.mpr hd]
          · rw [List.getElem?_eq_getElem hlt]
            exact congrArg some (by simpa [List.get_eq_getElem] using hx)
        · rw [matchTok_mk_seq_idx_oob parse tg v cs t i hatoi
              (Or.inr (not_lt.mp hlt))] at hm
          exact absurd hm (by simp)

/-- C5 counterexample: a numeric token addressing a real existing Scalar
element (`"e"`, which is not the append sentinel, under token `"0"`, not
`-`) still takes the synthesizing branch: the sequence grows from one to
two elements with a fresh `{k: …}` mapping inserted at position 0 — so
the branch is not taken "exactly when the Matcher returned the
append-sentinel Scalar for token `-`". -/
theorem c5_counterexample :
    matchTok specParse (seqN [strN "e"]) "0" = .ok [strN "e"] ∧
    strN "e" ≠ sentinelNode ∧
    sequenceInsert specParse (seqN [strN "e"]) ["0", "k"] (mapN [strN "q", strN "z"]) =
      .ok (seqN [Node.mk .mapping "!!map" ""
        [Node.mk .scalar "!!str" "k" [],
         Node.mk .mapping "!!map" "" [strN "q", strN "z"]], strN "e"]) := by
  refine ⟨rfl, ?_, rfl⟩
  intro h
  injection h with _ h2 _ _
  exact absurd h2 (by decide)

/-- C5 (corrected): with at least two tokens remaining, `sequenceInsert`
recurses into the matched node exactly when that node is not a Scalar
(then the recursion result replaces the element at the position the match
selected); it synthesizes the `{tokens[1]: {}}` mapping, inserts it at the
position of `tokens[0]`, and continues inside it exactly when the matched
node is a Scalar — which happens for the `-` append sentinel but equally
for a real existing Scalar element, so "exactly when the Matcher returned
the append-sentinel for `-`" is too narrow. -/
theorem c5_sequenceInsert_branch_spec (parse : String → Except Err Node)
    (root : Node) (t t2 : String) (ts : List String) (value n0 : Node)
    (rest : List Node) (hk : root.kind = .sequence)
    (hm : matchTok parse root t = .ok (n0 :: rest)) :
    (n0.kind ≠ .scalar →
      ∃ idx, seqSelIdx parse root.content t = some idx ∧
        idx < root.content.length ∧ root.content[idx]? = some n0 ∧
        sequenceInsert parse root (t :: t2 :: ts) value =
          ((insert parse n0 (t2 :: ts) value).map
            fun n0' => root.withContent (root.content.set idx n0'))) ∧
    (n0.kind = .scalar →
      sequenceInsert parse root (t :: t2 :: ts) value =
        (match sequenceInsertAt root t (Node.mk .mapping "!!map" ""
            [Node.mk .scalar "!!str" t2 [], Node.mk .mapping "!!map" "" []]) with
         | .panic => .panic
         | .error e => .error e
         | .ok _ =>
           match insert parse (Node.mk .mapping "!!map" ""
               [Node.mk .scalar "!!str" t2 [], Node.mk .mapping "!!map" "" []])
               (t2 :: ts) value with
           | .panic => .panic
           | .error e => .error e
           | .ok n2 => sequenceInsertAt root t n2)) := by
  obtain ⟨rk, rt, rv, rc⟩ := root
  simp only [Node.kind] at hk
  subst hk
  constructor
  · intro hns
    have hd : t ≠ "-" := by
      intro he
      subst he
      rw [matchTok_mk_seq_dash] at hm
      injection hm with hm'
      injection hm' with hx _
      exact hns (by rw [← hx]; rfl)
    obtain ⟨idx, h1, h2, h3⟩ := seqSelIdx_of_match parse rt rv rc t n0 rest hm hd
    refine ⟨idx, by simpa [Node.content] using h1, by simpa [Node.content] using h2,
      by simpa [Node.content] using h3, ?_⟩
    cases hk0 : n0.kind <;> try exact absurd hk0 hns
    all_goals
      cases hins : insert parse n0 (t2 :: ts) value <;>
        simp [sequenceInsert, hm, hk0, hins, h1, Res.map, Node.content]
  · intro hs
    simp [sequenceInsert, hm, hs]

/-- C5 witness: both branches at concrete inputs — recursion into a real
mapping element (content length preserved), and synthesis through a real
scalar element (content grows). -/
theorem c5_sequenceInsert_branch_spec_witness :
    sequenceInsert specParse (seqN [mapN [strN "a", strN "1"]]) ["0", "b"] (strN "2") =
      .ok (seqN [Node.mk .mapping "!!map" ""
        [strN "a", strN "1", Node.mk .scalar "" "b" [], strN "2"]]) ∧
    sequenceInsert specParse (seqN [strN "s"]) ["0", "m"] (mapN []) =
      .ok (seqN [Node.mk .mapping "!!map" ""
        [Node.mk .scalar "!!str" "m" [], Node.mk .mapping "!!map" "" []],
        strN "s"]) := by
  constructor
  · obtain ⟨idx, h1, _, _, h4⟩ :=
      (c5_sequenceInsert_branch_spec specParse (seqN [mapN [strN "a", strN "1"]])
        "0" "b" [] (strN "2") (mapN [strN "a", strN "1"]) [] rfl rfl).1 (by decide)
    have hidx : idx = 0 := by
      have h0 : seqSelIdx specParse (seqN [mapN [strN "a", strN "1"]]).content "0" =
          some 0 := rfl
      rw [h0] at h1
      exact (Option.some.inj h1).symm
    subst hidx
    exact h4
  · exact (c5_sequenceInsert_branch_spec specParse (seqN [strN "s"])
      "0" "m" [] (mapN []) (strN "s") [] rfl rfl).2 rfl

/-! ### Decimal rendering: `natToDecimal` round-trips through `atoi` -/

/-- Exhausted or not, the accumulator passes through `natDecCharsAux`. -/
theorem natDecCharsAux_zero (fuel : Nat) (acc : List Char) :
    natDecCharsAux fuel 0 acc = acc := by
  cases fuel <;> simp [natDecCharsAux]

/-- The digits are produced in front of the accumulator. -/
theorem natDecCharsAux_append :
    ∀ (fuel n : Nat) (acc : List Char), n ≤ fuel →
      natDecCharsAux fuel n acc = natDecCharsAux fuel n [] ++ acc := by
  intro fuel
  induction fuel with
  | zero => intro n acc _; simp [natDecCharsAux]
  | succ fuel ih =>
    intro n acc hn
    by_cases h0 : n = 0
    · subst h0; simp [natDecCharsAux]
    · have hdiv : n / 10 ≤ fuel := by
        have := Nat.div_lt_self (Nat.pos_of_ne_zero h0) (by norm_num : (1:Nat) < 10)
        omega
      rw [show natDecCharsAux (fuel + 1) n acc
            = natDecCharsAux fuel (n / 10) (Char.ofNat (48 + n % 10) :: acc) by
          simp [natDecCharsAux, h0]]
      rw [show natDecCharsAux (fuel + 1) n []
            = natDecCharsAux fuel (n / 10) [Char.ofNat (48 + n % 10)] by
          simp [natDecCharsAux, h0]]
      rw [ih (n / 10) _ hdiv, ih (n / 10) [Char.ofNat (48 + n % 10)] hdiv]
      simp

/-- Digit characters have codes 48–57. -/
theorem isDigitChar_ofNat (d : Nat) (h : d < 10) :
    isDigitChar (Char.ofNat (48 + d)) = true := by
  interval_cases d <;> rfl

/-- A digit character's numeric value. -/
theorem toNat_ofNat_digit (d : Nat) (h : d < 10) :
    (Char.ofNat (48 + d)).toNat - 48 = d := by
  interval_cases d <;> rfl

/-- Every character `natDecCharsAux` produces is a digit. -/
theorem natDecCharsAux_digits :
    ∀ (fuel n : Nat) (acc : List Char),
      (∀ ch ∈ acc, isDigitChar ch = true) →
      ∀ ch ∈ natDecCharsAux fuel n acc, isDigitChar ch = true := by
  intro fuel
  induction fuel with
  | zero => intro n acc hacc; simpa [natDecCharsAux] using hacc
  | succ fuel ih =>
    intro n acc hacc ch hch
    by_cases h0 : n = 0
    · subst h0; simp [natDecCharsAux] at hch; exact hacc ch hch
    · rw [show natDecCharsAux (fuel + 1) n acc
            = natDecCharsAux fuel (n / 10) (Char.ofNat (48 + n % 10) :: acc) by
          simp [natDecCharsAux, h0]] at hch
      refine ih (n / 10) _ ?_ ch hch
      intro ch' hch'
      rcases List.mem_cons.mp hch' with h | h
      · subst h; exact isDigitChar_ofNat _ (Nat.mod_lt _ (by norm_num))
      · exact hacc ch' h

/-- `natDecCharsAux` yields at least one digit for a positive number. -/
theorem natDecCharsAux_ne_nil (fuel n : Nat) (h0 : 0 < n) (hf : n ≤ fuel) :
    natDecCharsAux fuel n [] ≠ [] := by
  cases fuel with
  | zero => omega
  | succ fuel =>
    rw [show natDecCharsAux (fuel + 1) n []
          = natDecCharsAux fuel (n / 10) [Char.ofNat (48 + n % 10)] by
        simp [natDecCharsAux, Nat.pos_iff_ne_zero.mp h0]]
    have hdiv : n / 10 ≤ fuel := by
      have := Nat.div_lt_self h0 (by norm_num : (1:Nat) < 10)
      omega
    rw [natDecCharsAux_append fuel (n / 10) _ hdiv]
    simp

/-- Value of the produced digit string, with an arbitrary fold seed. -/
theorem natDecCharsAux_val :
    ∀ (fuel n : Nat), 0 < n → n ≤ fuel → ∀ (a : Nat),
      (natDecCharsAux fuel n []).foldl (fun x ch => x * 10 + (ch.toNat - 48)) a =
        a * 10 ^ (natDecCharsAux fuel n []).length + n := by
  intro fuel
  induction fuel with
  | zero => intro n h0 hf; omega
  | succ fuel ih =>
    intro n h0 hf a
    have hstep : natDecCharsAux (fuel + 1) n []
        = natDecCharsAux fuel (n / 10) [] ++ [Char.ofNat (48 + n % 10)] := by
      rw [show natDecCharsAux (fuel + 1) n []
            = natDecCharsAux fuel (n / 10) [Char.ofNat (48 + n % 10)] by
          simp [natDecCharsAux, Nat.pos_iff_ne_zero.mp h0]]
      by_cases hz : n / 10 = 0
      · rw [hz, natDecCharsAux_zero, natDecCharsAux_zero]; rfl
      · exact natDecCharsAux_append fuel (n / 10) _
          (by have := Nat.div_lt_self h0 (by norm_num : (1:Nat) < 10); omega)
    rw [hstep]
    by_cases hz : n / 10 = 0
    · rw [hz, natDecCharsAux_zero]
      simp only [List.nil_append, List.foldl_cons, List.foldl_nil, List.length_cons,
        List.length_nil]
      rw [toNat_ofNat_digit _ (Nat.mod_lt _ (by norm_num))]
      have : n % 10 = n := by omega
      rw [this]
      ring
    · have hdiv : n / 10 ≤ fuel := by
        have := Nat.div_lt_self h0 (by norm_num : (1:Nat) < 10)
        omega
      rw [List.foldl_append, List.length_append]
      rw [ih (n / 10) (Nat.pos_of_ne_zero hz) hdiv a]
      simp only [List.foldl_cons, List.foldl_nil, List.length_cons, List.length_nil]
      rw [toNat_ofNat_digit _ (Nat.mod_lt _ (by norm_num))]
      have hn : n / 10 * 10 + n % 10 = n := by omega
      ring_nf
      omega

/-- The decimal rendering evaluates back to its number. -/
theorem digitsVal_natToDecimal (n : Nat) :
    digitsVal (natToDecimal n).toList = n := by
  by_cases h0 : n = 0
  · subst h0; rfl
  · unfold natToDecimal
    rw [if_neg h0]
    show digitsVal (natDecCharsAux n n []) = n
    unfold digitsVal
    rw [natDecCharsAux_val n n (Nat.pos_of_ne_zero h0) le_rfl 0]
    simp

/-- Every character of the rendering is a digit. -/
theorem natToDecimal_all_digits (n : Nat) :
    ∀ ch ∈ (natToDecimal n).toList, isDigitChar ch = true := by
  by_cases h0 : n = 0
  · subst h0; intro ch hch; simp [natToDecimal] at hch; subst hch; rfl
  · unfold natToDecimal
    rw [if_neg h0]
    exact natDecCharsAux_digits n n [] (by simp)

/-- The rendering is never the empty string. -/
theorem natToDecimal_ne_nil (n : Nat) : (natToDecimal n).toList ≠ [] := by
  by_cases h0 : n = 0
  · subst h0; simp [natToDecimal]
  · unfold natToDecimal
    rw [if_neg h0]
    exact natDecCharsAux_ne_nil n n (Nat.pos_of_ne_zero h0) le_rfl

/-- Digits are not `-`, `+`, `~` or `/`. -/
theorem isDigitChar_excludes (ch : Char) (h : isDigitChar ch = true) :
    ch ≠ '-' ∧ ch ≠ '+' ∧ ch ≠ '~' ∧ ch ≠ '/' := by
  simp only [isDigitChar, Bool.and_eq_true, decide_eq_true_eq] at h
  obtain ⟨h1, h2⟩ := h
  refine ⟨?_, ?_, ?_, ?_⟩ <;> intro he <;> subst he <;> revert h1 h2 <;> decide

/-- `atoi` accepts any pure digit string whose value fits in 64 bits. -/
theorem atoi_of_digits (s : String) (hne : s.toList ≠ [])
    (hdig : ∀ ch ∈ s.toList, isDigitChar ch = true)
    (hrange : digitsVal s.toList ≤ 2 ^ 63 - 1) :
    atoi s = .ok (digitsVal s.toList) := by
  have hsign : (match s.data with
      | '-' :: rest => ((true : Bool), rest)
      | '+' :: rest => ((false : Bool), rest)
      | _ => ((false : Bool), s.data)) = (false, s.data) := by
    split
    · next heq =>
      have hd := hdig '-' (by rw [show s.toList = s.data from rfl, heq]; simp)
      exact absurd hd (by decide)
    · next heq =>
      have hd := hdig '+' (by rw [show s.toList = s.data from rfl, heq]; simp)
      exact absurd hd (by decide)
    · rfl
  have hne' : s.data.isEmpty = false := by
    cases hd : s.data with
    | nil => exact absurd hd hne
    | cons a l => rfl
  have hall : s.data.all isDigitChar = true := List.all_eq_true.mpr hdig
  simp only [atoi, String.toList, hsign]
  rw [hne']
  simp [hall]
  have hrange' : digitsVal s.data ≤ 2 ^ 63 - 1 := hrange
  constructor
  · omega
  · omega

/-- The decimal rendering of a 63-bit number parses back to it. -/
theorem atoi_natToDecimal (n : Nat) (h : n < 2 ^ 63) :
    atoi (natToDecimal n) = .ok (n : Int) := by
  rw [atoi_of_digits (natToDecimal n) (natToDecimal_ne_nil n)
      (natToDecimal_all_digits n)
      (by rw [digitsVal_natToDecimal]; omega)]
  rw [digitsVal_natToDecimal]

/-- The rendering is not a predicate token. -/
theorem isPredTok_natToDecimal (n : Nat) : isPredTok (natToDecimal n) = false := by
  by_contra hp
  simp only [Bool.not_eq_false] at hp
  obtain ⟨rest, hr⟩ := (isPredTok_eq_true_iff _).mp hp
  have := natToDecimal_all_digits n '~' (by rw [hr]; simp)
  exact absurd this (by decide)

/-- The rendering is not the append token. -/
theorem natToDecimal_ne_dash (n : Nat) : natToDecimal n ≠ "-" := by
  intro he
  have := natToDecimal_all_digits n
  rw [he] at this
  have hd := this '-' (by decide)
  exact absurd hd (by decide)

/-- The rendering contains no separator. -/
theorem natToDecimal_no_slash (n : Nat) : '/' ∉ (natToDecimal n).toList := by
  intro hmem
  have := natToDecimal_all_digits n '/' hmem
  exact absurd this (by decide)

/-! ### Smallness -/

/-- Children of a small list are small. -/
theorem smallNodes_mem :
    ∀ (l : List Node) (n : Node), smallNodes l = true → n ∈ l → smallNode n = true
  | [], _, _, hm => by simp at hm
  | x :: xs, n, h, hm => by
    rw [show smallNodes (x :: xs) = (smallNode x && smallNodes xs) from rfl,
      Bool.and_eq_true] at h
    rcases List.mem_cons.mp hm with he | hm'
    · subst he; exact h.1
    · exact smallNodes_mem xs n h.2 hm'

/-- Unfolding `smallNode` at a constructor. -/
theorem smallNode_mk (k : Kind) (t v : String) (cs : List Node) :
    smallNode (.mk k t v cs) = true ↔ cs.length < 2 ^ 63 ∧ smallNodes cs = true := by
  rw [show smallNode (.mk k t v cs)
      = (decide (cs.length < 2 ^ 63) && smallNodes cs) from rfl]
  simp

/-! ### Mapping content after mutation -/

/-- The scan finds only content elements. -/
theorem findPair_mem :
    ∀ (cs : List Node) (tok : String) (v : Node),
      findPair cs tok = some v → v ∈ cs
  | [], _, _, h => by simp [findPair] at h
  | [_], _, _, h => by simp [findPair] at h
  | k :: v' :: rest, tok, v, h => by
    rw [show findPair (k :: v' :: rest) tok
        = (if tok == k.value then some v' else findPair rest tok) from rfl] at h
    by_cases he : (tok == k.value) = true
    · rw [if_pos he] at h
      injection h with h'
      subst h'
      simp
    · rw [if_neg (by simpa using he)] at h
      have := findPair_mem rest tok v h
      simp [this]

/-- Appending a pair with the sought key to content where the scan failed
makes the scan find exactly the new value. -/
theorem findPair_append_none :
    ∀ (cs : List Node) (tok : String) (k v : Node),
      cs.length % 2 = 0 → findPair cs tok = none → k.value = tok →
      findPair (cs ++ [k, v]) tok = some v
  | [], tok, k, v, _, _, hk => by
    simp [findPair, hk, beq_iff_eq]
  | [_], _, _, _, hpar, _, _ => by simp at hpar
  | a :: b :: rest, tok, k, v, hpar, hf, hk => by
    rw [show findPair (a :: b :: rest) tok
        = (if tok == a.value then some b else findPair rest tok) from rfl] at hf
    by_cases he : (tok == a.value) = true
    · rw [if_pos he] at hf; exact absurd hf (by simp)
    · rw [if_neg (by simpa using he)] at hf
      rw [show (a :: b :: rest) ++ [k, v] = a :: b :: (rest ++ [k, v]) from rfl]
      rw [show findPair (a :: b :: (rest ++ [k, v])) tok
          = (if tok == a.value then some b else findPair (rest ++ [k, v]) tok)
          from rfl]
      rw [if_neg (by simpa using he)]
      exact findPair_append_none rest tok k v
        (by simp only [List.length_cons] at hpar; omega) hf hk

/-- Replacement keeps the length. -/
theorem mapReplaceValue_length :
    ∀ (cs : List Node) (tok : String) (n : Node),
      (mapReplaceValue cs tok n).length = cs.length
  | [], _, _ => rfl
  | [_], _, _ => rfl
  | k :: v :: rest, tok, n => by
    rw [show mapReplaceValue (k :: v :: rest) tok n
        = (if tok == k.value then k :: n :: rest
           else k :: v :: mapReplaceValue rest tok n) from rfl]
    by_cases he : (tok == k.value) = true
    · rw [if_pos he]
      simp
    · rw [if_neg (by simpa using he)]
      simp [mapReplaceValue_length rest tok n]

/-- After replacing the found value, the scan finds the replacement. -/
theorem findPair_mapReplaceValue :
    ∀ (cs : List Node) (tok : String) (n v : Node),
      findPair cs tok = some v →
      findPair (mapReplaceValue cs tok n) tok = some n
  | [], _, _, _, h => by simp [findPair] at h
  | [_], _, _, _, h => by simp [findPair] at h
  | k :: v' :: rest, tok, n, v, h => by
    rw [show findPair (k :: v' :: rest) tok
        = (if tok == k.value then some v' else findPair rest tok) from rfl] at h
    by_cases he : (tok == k.value) = true
    · rw [show mapReplaceValue (k :: v' :: rest) tok n = k :: n :: rest by
        rw [show mapReplaceValue (k :: v' :: rest) tok n
            = (if tok == k.value then k :: n :: rest
               else k :: v' :: mapReplaceValue rest tok n) from rfl, if_pos he]]
      rw [show findPair (k :: n :: rest) tok
          = (if tok == k.value then some n else findPair rest tok) from rfl,
        if_pos he]
    · rw [if_neg (by simpa using he)] at h
      rw [show mapReplaceValue (k :: v' :: rest) tok n
          = k :: v' :: mapReplaceValue rest tok n by
        rw [show mapReplaceValue (k :: v' :: rest) tok n
            = (if tok == k.value then k :: n :: rest
               else k :: v' :: mapReplaceValue rest tok n) from rfl,
          if_neg (by simpa using he)]]
      rw [show findPair (k :: v' :: mapReplaceValue rest tok n) tok
          = (if tok == k.value then some v'
             else findPair (mapReplaceValue rest tok n) tok) from rfl,
        if_neg (by simpa using he)]
      exact findPair_mapReplaceValue rest tok n v h

/-- `match` on a mapping whose scan succeeds. -/
theorem matchTok_mk_map_found (parse : String → Except Err Node)
    (tg v : String) (cs : List Node) (tok : String) (n : Node)
    (hpar : cs.length % 2 = 0) (hf : findPair cs tok = some n) :
    matchTok parse (.mk .mapping tg v cs) tok = .ok [n] := by
  rw [show matchTok parse (.mk .mapping tg v cs) tok
      = (if cs.length % 2 != 0 then .error (.malformedTree cs.length)
         else match findPair cs tok with
           | some v => .ok [v]
           | none => .error (.notFound tok)) from rfl]
  simp [hpar, hf]

/-- Inversion: a successful mapping match means even content and a
successful scan returning exactly that singleton. -/
theorem matchTok_mk_map_ok_inv (parse : String → Except Err Node)
    (tg v : String) (cs : List Node) (tok : String) (l : List Node)
    (h : matchTok parse (.mk .mapping tg v cs) tok = .ok l) :
    cs.length % 2 = 0 ∧ ∃ n0, l = [n0] ∧ findPair cs tok = some n0 := by
  rw [show matchTok parse (.mk .mapping tg v cs) tok
      = (if cs.length % 2 != 0 then .error (.malformedTree cs.length)
         else match findPair cs tok with
           | some v => .ok [v]
           | none => .error (.notFound tok)) from rfl] at h
  by_cases hpar : cs.length % 2 = 0
  · refine ⟨hpar, ?_⟩
    rw [if_neg (by simp [hpar])] at h
    cases hf : findPair cs tok with
    | some n0 => rw [hf] at h; injection h with h'; exact ⟨n0, h'.symm, rfl⟩
    | none => rw [hf] at h; exact absurd h (by simp)
  · rw [if_pos (by simpa using hpar)] at h
    exact absurd h (by simp)

/-- Inversion: a NotFound mapping match means even content and a failed
scan. -/
theorem matchTok_mk_map_notFound_inv (parse : String → Except Err Node)
    (tg v : String) (cs : List Node) (tok : String) (tk : String)
    (h : matchTok parse (.mk .mapping tg v cs) tok = .error (.notFound tk)) :
    cs.length % 2 = 0 ∧ findPair cs tok = none := by
  rw [show matchTok parse (.mk .mapping tg v cs) tok
      = (if cs.length % 2 != 0 then .error (.malformedTree cs.length)
         else match findPair cs tok with
           | some v => .ok [v]
           | none => .error (.notFound tok)) from rfl] at h
  by_cases hpar : cs.length % 2 = 0
  · refine ⟨hpar, ?_⟩
    rw [if_neg (by simp [hpar])] at h
    cases hf : findPair cs tok with
    | some n0 => rw [hf] at h; exact absurd h (by simp)
    | none => rfl
  · rw [if_pos (by simpa using hpar)] at h
    injection h with h'
    exact absurd h' (by simp)

/-! ### Sequence content after mutation -/

/-- Inversion of a successful indexed `sequenceInsertAt`. -/
theorem sequenceInsertAt_ok_inv (root : Node) (t : String) (n root' : Node)
    (hd : t ≠ "-") (h : sequenceInsertAt root t n = .ok root') :
    ∃ i : Int, atoi t = .ok i ∧ 0 ≤ i ∧ i.toNat < root.content.length ∧
      root' = root.withContent (root.content.insertIdx i.toNat n) := by
  unfold sequenceInsertAt at h
  rw [if_neg (by simpa using hd)] at h
  cases hatoi : atoi t with
  | error e => rw [hatoi] at h; exact absurd h (by simp)
  | ok i =>
    rw [hatoi] at h
    have h2 : (if (decide (i < 0) || decide ((root.content.length : Int) ≤ i)) = true
        then (Res.error Err.outOfBounds : Res Node)
        else Res.ok (root.withContent (root.content.insertIdx i.toNat n)))
        = Res.ok root' := h
    split at h2
    · exact absurd h2 (by simp)
    · next hc =>
      injection h2 with h'
      simp only [Bool.or_eq_true, decide_eq_true_eq, not_or, not_lt] at hc
      exact ⟨i, rfl, hc.1, by omega, h'.symm⟩

/-! ### One resolution step -/

/-- `joinResults` over a single sub-resolution is that resolution. -/
theorem joinResults_singleton (r : Res (List Node)) :
    joinResults [r] = r := by
  cases r <;> simp [joinResults]

/-- One `find` step through a token whose match is a singleton. -/
theorem find_cons_single (parse : String → Except Err Node)
    (root x : Node) (t : String) (ts : List String)
    (hm : matchTok parse root t = .ok [x]) (hts : ts ≠ []) :
    find parse root (t :: ts) = find parse x ts := by
  cases ts with
  | nil => exact absurd rfl hts
  | cons t2 ts2 =>
    rw [show find parse root (t :: t2 :: ts2)
        = (match matchTok parse root t with
           | .panic => .panic
           | .error e => .error e
           | .ok next => joinResults (next.map fun n => find parse n (t2 :: ts2)))
        from rfl, hm]
    simp only [List.map_cons, List.map_nil]
    exact joinResults_singleton _

/-- `find` for a single token is the match. -/
theorem find_single (parse : String → Except Err Node) (root : Node) (t : String) :
    find parse root [t] = matchTok parse root t := by
  rw [show find parse root [t]
      = (match matchTok parse root t with
         | .panic => .panic
         | .error e => .error e
         | .ok next => .ok next) from rfl]
  cases matchTok parse root t <;> rfl

/-! ### Tokenizer -/

/-- `splitSlash` never returns the empty list of chunks. -/
theorem splitSlash_ne_nil : ∀ (l : List Char), splitSlash l ≠ []
  | [] => by simp [splitSlash]
  | c :: rest => by
    by_cases hc : c = '/'
    · simp [splitSlash, hc]
    · have := splitSlash_ne_nil rest
      rw [show splitSlash (c :: rest)
          = (if c = '/' then [] :: splitSlash rest
             else match splitSlash rest with
               | chunk :: chunks => (c :: chunk) :: chunks
               | [] => [[c]]) from rfl, if_neg hc]
      cases splitSlash rest <;> simp

/-- Non-separator characters prepend to the first chunk. -/
theorem splitSlash_cons_ne (c : Char) (rest : List Char) (hc : c ≠ '/') :
    splitSlash (c :: rest) =
      (c :: (splitSlash rest).headI) :: (splitSlash rest).tail := by
  rw [show splitSlash (c :: rest)
      = (if c = '/' then [] :: splitSlash rest
         else match splitSlash rest with
           | chunk :: chunks => (c :: chunk) :: chunks
           | [] => [[c]]) from rfl, if_neg hc]
  cases h : splitSlash rest with
  | nil => exact absurd h (splitSlash_ne_nil rest)
  | cons chunk chunks => rfl

/-- A run without separators is one chunk. -/
theorem splitSlash_no_slash : ∀ (l : List Char), '/' ∉ l → splitSlash l = [l]
  | [], _ => rfl
  | c :: rest, h => by
    have hc : c ≠ '/' := fun he => h (he ▸ List.mem_cons_self c rest)
    have hr : '/' ∉ rest := fun hm => h (List.mem_cons_of_mem c hm)
    rw [splitSlash_cons_ne c rest hc, splitSlash_no_slash rest hr]
    rfl

/-- Splitting after a clean chunk and a separator resumes. -/
theorem splitSlash_append_slash :
    ∀ (ch l : List Char), '/' ∉ ch →
      splitSlash (ch ++ '/' :: l) = ch :: splitSlash l
  | [], l, _ => by simp [splitSlash]
  | c :: ch, l, h => by
    have hc : c ≠ '/' := fun he => h (he ▸ List.mem_cons_self c ch)
    have hch : '/' ∉ ch := fun hm => h (List.mem_cons_of_mem c hm)
    rw [List.cons_append, splitSlash_cons_ne c (ch ++ '/' :: l) hc,
      splitSlash_append_slash ch l hch]
    rfl

/-- Every chunk of a split is separator-free. -/
theorem splitSlash_chunks_no_slash :
    ∀ (l : List Char) (ch : List Char), ch ∈ splitSlash l → '/' ∉ ch
  | [], ch, hm => by
    simp [splitSlash] at hm
    subst hm
    simp
  | c :: rest, ch, hm => by
    by_cases hc : c = '/'
    · rw [show splitSlash (c :: rest)
          = (if c = '/' then [] :: splitSlash rest
             else match splitSlash rest with
               | chunk :: chunks => (c :: chunk) :: chunks
               | [] => [[c]]) from rfl, if_pos hc] at hm
      rcases List.mem_cons.mp hm with he | hm'
      · subst he; simp
      · exact splitSlash_chunks_no_slash rest ch hm'
    · rw [splitSlash_cons_ne c rest hc] at hm
      rcases List.mem_cons.mp hm with he | hm'
      · subst he
        intro hmem
        rcases List.mem_cons.mp hmem with he' | hm''
        · exact hc he'.symm
        · have hh : (splitSlash rest).headI ∈ splitSlash rest := by
            cases hsp : splitSlash rest with
            | nil => exact absurd hsp (splitSlash_ne_nil rest)
            | cons a as => simp
          exact splitSlash_chunks_no_slash rest _ hh hm''
      · have : ch ∈ splitSlash rest := by
          cases hsp : splitSlash rest with
          | nil => exact absurd hsp (splitSlash_ne_nil rest)
          | cons a as =>
            rw [hsp] at hm'
            simp only [List.tail_cons] at hm'
            simp [hsp, hm']
        exact splitSlash_chunks_no_slash rest ch this

/-- Joining separator-free chunks splits back to them. -/
theorem splitSlash_joinSlash :
    ∀ (chunks : List (List Char)), chunks ≠ [] →
      (∀ ch ∈ chunks, '/' ∉ ch) → splitSlash (joinSlash chunks) = chunks
  | [], h, _ => absurd rfl h
  | [ch], _, hno => by
    rw [show joinSlash [ch] = ch from rfl]
    exact splitSlash_no_slash ch (hno ch (by simp))
  | ch :: ch2 :: chunks, _, hno => by
    rw [show joinSlash (ch :: ch2 :: chunks)
        = ch ++ '/' :: joinSlash (ch2 :: chunks) from rfl]
    rw [splitSlash_append_slash ch _ (hno ch (by simp))]
    rw [splitSlash_joinSlash (ch2 :: chunks) (by simp)
      (fun c hc => hno c (List.mem_cons_of_mem ch hc))]

/-- Tokens of a non-empty pointer: non-empty, and separator-free. -/
theorem jsonPointerToTokens_shape (ptr : String) (toks : List String)
    (hne : ptr ≠ "") (h : jsonPointerToTokens ptr = .ok toks) :
    toks ≠ [] ∧ ∀ tok ∈ toks, '/' ∉ tok.toList := by
  unfold jsonPointerToTokens at h
  rw [if_neg (by simpa using hne)] at h
  cases hv : ValidateJSONPointer ptr with
  | error e => rw [hv] at h; exact absurd h (by simp)
  | ok u =>
    rw [hv] at h
    injection h with h'
    unfold ValidateJSONPointer at hv
    rw [if_neg (by simpa using hne)] at hv
    cases hcs : ptr.toList with
    | nil =>
      exact absurd (congrArg String.mk hcs) (by simpa [String.mk] using hne)
    | cons c0 rest =>
      rw [hcs] at hv
      have hc0 : c0 = '/' := by
        by_contra hc
        split at hv
        · next heq =>
          injection heq with h1 _
          exact hc h1
        · exact Except.noConfusion hv
      subst hc0
      rw [hcs] at h'
      rw [show splitSlash ('/' :: rest) = [] :: splitSlash rest by
        simp [splitSlash]] at h'
      simp only [List.map_cons, List.tail_cons] at h'
      constructor
      · rw [← h']
        cases hsp : splitSlash rest with
        | nil => exact absurd hsp (splitSlash_ne_nil rest)
        | cons a as => simp
      · intro tok hm
        rw [← h'] at hm
        obtain ⟨ch, hch, heq⟩ := List.mem_map.mp hm
        have : '/' ∉ ch := splitSlash_chunks_no_slash rest ch hch
        rw [← heq]
        simpa using this

/-- Rendering separator-free tokens gives a pointer that tokenizes back to
exactly those tokens. -/
theorem jsonPointerToTokens_renderPtr (toks : List String)
    (h : ∀ tok ∈ toks, '/' ∉ tok.toList) :
    jsonPointerToTokens (renderPtr toks) = .ok toks := by
  cases toks with
  | nil => rfl
  | cons t0 ts0 =>
    have hjoin : (renderPtr (t0 :: ts0)).toList
        = '/' :: joinSlash ((t0 :: ts0).map String.toList) := by
      rw [show (renderPtr (t0 :: ts0)).toList
          = joinSlash ([] :: (t0 :: ts0).map String.toList) from rfl]
      rfl
    have hne : renderPtr (t0 :: ts0) ≠ "" := by
      intro he
      have := congrArg String.toList he
      rw [hjoin] at this
      simp at this
    unfold jsonPointerToTokens
    rw [if_neg (by simpa using hne)]
    have hval : ValidateJSONPointer (renderPtr (t0 :: ts0)) = .ok () := by
      unfold ValidateJSONPointer
      rw [if_neg (by simpa using hne), hjoin]
      rfl
    rw [hval]
    have hsplit : splitSlash (renderPtr (t0 :: ts0)).toList
        = [] :: (t0 :: ts0).map String.toList := by
      rw [hjoin]
      rw [show ('/' :: joinSlash ((t0 :: ts0).map String.toList))
          = [] ++ '/' :: joinSlash ((t0 :: ts0).map String.toList) from rfl]
      rw [splitSlash_append_slash [] _ (by simp)]
      rw [splitSlash_joinSlash ((t0 :: ts0).map String.toList) (by simp)]
      intro ch hch
      obtain ⟨tok, hm, heq⟩ := List.mem_map.mp hch
      rw [← heq]
      exact h tok hm
    rw [hsplit]
    simp only [List.map_cons, List.tail_cons]
    congr 1
    rw [show String.mk (String.toList t0) = t0 from rfl]
    rw [List.map_map]
    rw [show (String.mk ∘ String.toList) = id from funext fun s => rfl]
    simp

/-! ### The instrumented inserter computes the same tree -/

/-- `sequenceInsertAt` returns or errors, never panics. -/
theorem sequenceInsertAt_ne_panic (root : Node) (t : String) (n : Node) :
    sequenceInsertAt root t n ≠ .panic := by
  unfold sequenceInsertAt
  split
  · simp
  · split
    · simp
    · split <;> simp

/-- One-step unfolding of `insert` at a sequence root. -/
theorem insert_seq_step (parse : String → Except Err Node) (rt rv : String)
    (rc : List Node) (t : String) (ts : List String) (value : Node) :
    insert parse (.mk .sequence rt rv rc) (t :: ts) value =
      (match matchTok parse (.mk .sequence rt rv rc) t with
       | .panic => .panic
       | .error e => .error e
       | .ok next =>
         match ts with
         | [] => sequenceInsertAt (.mk .sequence rt rv rc) t value
         | t2 :: _ =>
           match next with
           | [] => .panic
           | n0 :: _ =>
             match n0.kind with
             | .scalar =>
               match sequenceInsertAt (.mk .sequence rt rv rc) t
                   (Node.mk .mapping "!!map" ""
                     [Node.mk .scalar "!!str" t2 [],
                      Node.mk .mapping "!!map" "" []]) with
               | .panic => .panic
               | .error e => .error e
               | .ok _ =>
                 match insert parse (Node.mk .mapping "!!map" ""
                     [Node.mk .scalar "!!str" t2 [],
                      Node.mk .mapping "!!map" "" []]) ts value with
                 | .panic => .panic
                 | .error e => .error e
                 | .ok n2 => sequenceInsertAt (.mk .sequence rt rv rc) t n2
             | _ =>
               match insert parse n0 ts value with
               | .panic => .panic
               | .error e => .error e
               | .ok n0' =>
                 match seqSelIdx parse rc t with
                 | some idx =>
                   .ok ((Node.mk .sequence rt rv rc).withContent (rc.set idx n0'))
                 | none => .panic) := rfl

/-- One-step unfolding of `insert` at a mapping root. -/
theorem insert_map_step (parse : String → Except Err Node) (rt rv : String)
    (rc : List Node) (t : String) (ts : List String) (value : Node) :
    insert parse (.mk .mapping rt rv rc) (t :: ts) value =
      (match matchTok parse (.mk .mapping rt rv rc) t with
       | .panic => .panic
       | .error (.notFound _) =>
         match ts with
         | [] =>
           .ok ((Node.mk .mapping rt rv rc).withContent
             (rc ++ [Node.mk .scalar "" t [], value]))
         | _ :: _ =>
           match insert parse (Node.mk .mapping "!!map" "" []) ts value with
           | .panic => .panic
           | .error e => .error e
           | .ok v' =>
             .ok ((Node.mk .mapping rt rv rc).withContent
               (rc ++ [Node.mk .scalar "" t [], v']))
       | .error e => .error e
       | .ok [] => .panic
       | .ok (n0 :: _) =>
         match insert parse n0 ts value with
         | .panic => .panic
         | .error e => .error e
         | .ok n0' =>
           .ok ((Node.mk .mapping rt rv rc).withContent
             (mapReplaceValue rc t n0'))) := rfl

/-- One-step unfolding of `insertR` at a sequence root. -/
theorem insertR_seq_step (parse : String → Except Err Node) (rt rv : String)
    (rc : List Node) (t : String) (ts : List String) (value : Node) :
    insertR parse (.mk .sequence rt rv rc) (t :: ts) value =
      (match matchTok parse (.mk .sequence rt rv rc) t with
       | .panic => .panic
       | .error e => .error e
       | .ok next =>
         match ts with
         | [] =>
           if t == "-" then
             .ok ⟨(Node.mk .sequence rt rv rc).withContent (rc ++ [value]),
                  [natToDecimal rc.length], value, false⟩
           else
             match sequenceInsertAt (.mk .sequence rt rv rc) t value with
             | .panic => .panic
             | .error e => .error e
             | .ok root' => .ok ⟨root', [t], value, false⟩
         | t2 :: _ =>
           match next with
           | [] => .panic
           | n0 :: _ =>
             match n0.kind with
             | .scalar =>
               match sequenceInsertAt (.mk .sequence rt rv rc) t
                   (Node.mk .mapping "!!map" ""
                     [Node.mk .scalar "!!str" t2 [],
                      Node.mk .mapping "!!map" "" []]) with
               | .panic => .panic
               | .error e => .error e
               | .ok _ =>
                 match insertR parse (Node.mk .mapping "!!map" ""
                     [Node.mk .scalar "!!str" t2 [],
                      Node.mk .mapping "!!map" "" []]) ts value with
                 | .panic => .panic
                 | .error e => .error e
                 | .ok r =>
                   match sequenceInsertAt (.mk .sequence rt rv rc) t r.tree with
                   | .panic => .panic
                   | .error e => .error e
                   | .ok root2 =>
                     .ok ⟨root2,
                          (if t == "-" then natToDecimal rc.length else t)
                            :: r.rtoks,
                          r.written, r.merged⟩
             | _ =>
               match insertR parse n0 ts value with
               | .panic => .panic
               | .error e => .error e
               | .ok r =>
                 match seqSelIdx parse rc t with
                 | some idx =>
                   .ok ⟨(Node.mk .sequence rt rv rc).withContent (rc.set idx r.tree),
                        (if isPredTok t then natToDecimal idx else t) :: r.rtoks,
                        r.written, r.merged⟩
                 | none => .panic) := rfl

/-- One-step unfolding of `insertR` at a mapping root. -/
theorem insertR_map_step (parse : String → Except Err Node) (rt rv : String)
    (rc : List Node) (t : String) (ts : List String) (value : Node) :
    insertR parse (.mk .mapping rt rv rc) (t :: ts) value =
      (match matchTok parse (.mk .mapping rt rv rc) t with
       | .panic => .panic
       | .error (.notFound _) =>
         match ts with
         | [] =>
           .ok ⟨(Node.mk .mapping rt rv rc).withContent
                  (rc ++ [Node.mk .scalar "" t [], value]), [t], value, false⟩
         | _ :: _ =>
           match insertR parse (Node.mk .mapping "!!map" "" []) ts value with
           | .panic => .panic
           | .error e => .error e
           | .ok r =>
             .ok ⟨(Node.mk .mapping rt rv rc).withContent
                    (rc ++ [Node.mk .scalar "" t [], r.tree]),
                  t :: r.rtoks, r.written, r.merged⟩
       | .error e => .error e
       | .ok [] => .panic
       | .ok (n0 :: _) =>
         match insertR parse n0 ts value with
         | .panic => .panic
         | .error e => .error e
         | .ok r =>
           .ok ⟨(Node.mk .mapping rt rv rc).withContent
                  (mapReplaceValue rc t r.tree),
                t :: r.rtoks, r.written, r.merged⟩) := rfl

/-- `insertR` is `insert` with bookkeeping: projecting the tree out of it
gives exactly `insert`. -/
theorem insert_eq_insertR (parse : String → Except Err Node) :
    ∀ (toks : List String) (root value : Node),
      insert parse root toks value = (insertR parse root toks value).map InsOut.tree := by
  intro toks
  induction toks with
  | nil =>
    intro root value
    obtain ⟨rk, rt, rv, rc⟩ := root
    obtain ⟨vk, vt, vv, vc⟩ := value
    cases rk <;> cases vk <;>
      simp [insert, insertR, Res.map, Node.kind, Node.tag, Node.value, Node.content,
        Node.withContent] <;>
      by_cases he : rc.isEmpty <;>
      simp [he, Res.map, Node.kind, Node.tag, Node.value, Node.content, Node.withContent]
  | cons t ts ih =>
    intro root value
    obtain ⟨rk, rt, rv, rc⟩ := root
    cases rk with
    | sequence =>
      rw [insert_seq_step, insertR_seq_step]
      cases hm : matchTok parse (.mk .sequence rt rv rc) t with
      | panic => rfl
      | error e => rfl
      | ok next =>
        cases ts with
        | nil =>
          by_cases hd : (t == "-") = true
          · simp [hd, sequenceInsertAt, Res.map, Node.content, Node.withContent]
          · cases hsa : sequenceInsertAt (.mk .sequence rt rv rc) t value with
            | panic => exact absurd hsa (sequenceInsertAt_ne_panic _ _ _)
            | error e => simp [hd, hsa, Res.map]
            | ok root' => simp [hd, hsa, Res.map]
        | cons t2 ts2 =>
          cases next with
          | nil => rfl
          | cons n0 rest =>
            obtain ⟨nk, nt, nv, nc⟩ := n0
            have hstep : ∀ (n1 : Node),
                insert parse n1 (t2 :: ts2) value
                  = (insertR parse n1 (t2 :: ts2) value).map InsOut.tree :=
              fun n1 => ih n1 value
            cases nk with
            | scalar =>
              cases hsa : sequenceInsertAt (.mk .sequence rt rv rc) t
                  (Node.mk .mapping "!!map" ""
                    [Node.mk .scalar "!!str" t2 [],
                     Node.mk .mapping "!!map" "" []]) with
              | panic => exact absurd hsa (sequenceInsertAt_ne_panic _ _ _)
              | error e => simp [hsa, Node.kind, Res.map]
              | ok u =>
                cases hr : insertR parse (Node.mk .mapping "!!map" ""
                    [Node.mk .scalar "!!str" t2 [],
                     Node.mk .mapping "!!map" "" []]) (t2 :: ts2) value with
                | panic => simp [hsa, hstep, hr, Node.kind, Res.map]
                | error e => simp [hsa, hstep, hr, Node.kind, Res.map]
                | ok r =>
                  cases hsa2 : sequenceInsertAt (.mk .sequence rt rv rc) t r.tree with
                  | panic => exact absurd hsa2 (sequenceInsertAt_ne_panic _ _ _)
                  | error e => simp [hsa, hstep, hr, hsa2, Node.kind, Res.map]
                  | ok root2 => simp [hsa, hstep, hr, hsa2, Node.kind, Res.map]
            | document =>
              cases hr : insertR parse (Node.mk .document nt nv nc) (t2 :: ts2) value <;>
                cases hsel : seqSelIdx parse rc t <;>
                simp [hstep, hr, hsel, Node.kind, Res.map]
            | sequence =>
              cases hr : insertR parse (Node.mk .sequence nt nv nc) (t2 :: ts2) value <;>
                cases hsel : seqSelIdx parse rc t <;>
                simp [hstep, hr, hsel, Node.kind, Res.map]
            | mapping =>
              cases hr : insertR parse (Node.mk .mapping nt nv nc) (t2 :: ts2) value <;>
                cases hsel : seqSelIdx parse rc t <;>
                simp [hstep, hr, hsel, Node.kind, Res.map]
            | aliasNode =>
              cases hr : insertR parse (Node.mk .aliasNode nt nv nc) (t2 :: ts2) value <;>
                cases hsel : seqSelIdx parse rc t <;>
                simp [hstep, hr, hsel, Node.kind, Res.map]
    | mapping =>
      rw [insert_map_step, insertR_map_step]
      cases hm : matchTok parse (.mk .mapping rt rv rc) t with
      | panic => rfl
      | error e =>
        cases e with
        | notFound tk =>
          cases ts with
          | nil => rfl
          | cons t2 ts2 =>
            have hstep := ih (Node.mk .mapping "!!map" "" []) value
            cases hr : insertR parse (Node.mk .mapping "!!map" "" [])
                (t2 :: ts2) value <;>
              simp [hstep, hr, Res.map]
        | invalidEmptyPointer => rfl
        | syntaxError => rfl
        | tooManyResults n => rfl
        | badState p => rfl
        | outOfBounds => rfl
        | atoiError tk => rfl
        | malformedTree n => rfl
        | unhandledNodeType k tg => rfl
        | cannotInsert a b c d => rfl
        | parseError s => rfl
        | withPointer p e => rfl
      | ok next =>
        cases next with
        | nil => rfl
        | cons n0 rest =>
          have hstep := ih n0 value
          cases hr : insertR parse n0 ts value <;>
            simp [hstep, hr, Res.map]
    | document => simp [insert, insertR, Res.map, Node.kind, Node.tag, Node.content]
    | scalar => simp [insert, insertR, Res.map, Node.kind, Node.tag, Node.content]
    | aliasNode => simp [insert, insertR, Res.map, Node.kind, Node.tag, Node.content]

/-- `InsertR` is `Insert` with bookkeeping. -/
theorem Insert_eq_InsertR (parse : String → Except Err Node)
    (root : Node) (ptr : String) (value : Node) :
    Insert parse root ptr value = (InsertR parse root ptr value).map InsOut.tree := by
  unfold Insert InsertR
  cases htok : jsonPointerToTokens ptr with
  | error e => rfl
  | ok toks =>
    cases hv : (match value.kind with
        | .document =>
          match value.content with
          | [] => .panic
          | v0 :: _ => .ok v0
        | _ => .ok value : Res Node) with
    | panic => rfl
    | error e => rfl
    | ok value' =>
      obtain ⟨rk, rt, rv, rc⟩ := root
      cases rk with
      | document =>
        cases rc with
        | nil => rfl
        | cons c0 crest =>
          cases hr : insertR parse c0 toks value' <;>
            simp [insert_eq_insertR, hr, Res.map, Node.kind, Node.content,
              Node.withContent]
      | sequence => exact insert_eq_insertR parse toks _ value'
      | mapping => exact insert_eq_insertR parse toks _ value'
      | scalar => exact insert_eq_insertR parse toks _ value'
      | aliasNode => exact insert_eq_insertR parse toks _ value'

/-! ### Re-resolving a mutated node -/

/-- Inversion of a successful `seqSelIdx` on a numeric token. -/
theorem seqSelIdx_inv (parse : String → Except Err Node) (cs : List Node)
    (t : String) (idx : Nat) (hp : isPredTok t = false) (hd : t ≠ "-")
    (h : seqSelIdx parse cs t = some idx) :
    ∃ i : Int, atoi t = .ok i ∧ 0 ≤ i ∧ i.toNat = idx ∧ idx < cs.length := by
  unfold seqSelIdx at h
  rw [if_neg (by simp [hp])] at h
  rw [if_neg (by simpa using hd)] at h
  cases hatoi : atoi t with
  | error e => rw [hatoi] at h; exact absurd h (by simp)
  | ok i =>
    rw [hatoi] at h
    have h2 : (if (decide (0 ≤ i) && decide (i.toNat < cs.length)) = true
        then some i.toNat else none) = some idx := h
    split at h2
    · next hc =>
      injection h2 with h'
      simp only [Bool.and_eq_true, decide_eq_true_eq] at hc
      exact ⟨i, rfl, hc.1, h', h' ▸ hc.2⟩
    · exact absurd h2 (by simp)

/-- Matching the rendered index of an appended element finds it. -/
theorem matchTok_seq_append_last (parse : String → Except Err Node)
    (rt rv : String) (cs : List Node) (x : Node) (hsmall : cs.length < 2 ^ 63) :
    matchTok parse (.mk .sequence rt rv (cs ++ [x])) (natToDecimal cs.length) =
      .ok [x] := by
  have hlt : (Int.ofNat cs.length).toNat < (cs ++ [x]).length := by
    simp
  rw [matchTok_mk_seq_idx parse rt rv (cs ++ [x]) (natToDecimal cs.length)
      (cs.length : Int) (atoi_natToDecimal cs.length hsmall)
      (Int.ofNat_nonneg _) hlt]
  congr 1
  simp [List.get_eq_getElem]

/-- Matching the index of an `insertIdx`-inserted element finds it. -/
theorem matchTok_seq_insertIdx (parse : String → Except Err Node)
    (rt rv : String) (cs : List Node) (idx : Nat) (x : Node) (tok : String)
    (i : Int) (ha : atoi tok = .ok i) (h0 : 0 ≤ i) (hidx : i.toNat = idx)
    (hle : idx ≤ cs.length) :
    matchTok parse (.mk .sequence rt rv (cs.insertIdx idx x)) tok = .ok [x] := by
  have hlt : i.toNat < (cs.insertIdx idx x).length := by
    rw [List.length_insertIdx _ _ hle]
    omega
  rw [matchTok_mk_seq_idx parse rt rv _ tok i ha h0 hlt]
  congr 1
  subst hidx
  simp only [List.get_eq_getElem]
  rw [List.getElem_insertIdx_self cs x i.toNat hle]

/-- Matching the index of a replaced element finds the replacement. -/
theorem matchTok_seq_set (parse : String → Except Err Node)
    (rt rv : String) (cs : List Node) (idx : Nat) (x : Node) (tok : String)
    (i : Int) (ha : atoi tok = .ok i) (h0 : 0 ≤ i) (hidx : i.toNat = idx)
    (hlt : idx < cs.length) :
    matchTok parse (.mk .sequence rt rv (cs.set idx x)) tok = .ok [x] := by
  have hlt' : i.toNat < (cs.set idx x).length := by
    rw [List.length_set]
    omega
  rw [matchTok_mk_seq_idx parse rt rv _ tok i ha h0 hlt']
  congr 1
  subst hidx
  simp

/-- Matching the key of a just-appended pair finds its value. -/
theorem matchTok_map_append_pair (parse : String → Except Err Node)
    (rt rv : String) (cs : List Node) (t : String) (k x : Node)
    (hpar : cs.length % 2 = 0) (hnf : findPair cs t = none) (hk : k.value = t) :
    matchTok parse (.mk .mapping rt rv (cs ++ [k, x])) t = .ok [x] := by
  refine matchTok_mk_map_found parse rt rv _ t x ?_ ?_
  · simp only [List.length_append, List.length_cons, List.length_nil]
    omega
  · exact findPair_append_none cs t k x hpar hnf hk

/-- Matching the key of a replaced pair finds the replacement value. -/
theorem matchTok_map_replace (parse : String → Except Err Node)
    (rt rv : String) (cs : List Node) (t : String) (x v : Node)
    (hpar : cs.length % 2 = 0) (hf : findPair cs t = some v) :
    matchTok parse (.mk .mapping rt rv (mapReplaceValue cs t x)) t = .ok [x] := by
  refine matchTok_mk_map_found parse rt rv _ t x ?_ ?_
  · rw [mapReplaceValue_length]
    exact hpar
  · exact findPair_mapReplaceValue cs t x v hf

/-- The synthesized `{toks[1]: {}}` mapping is small. -/
theorem smallNode_placeholder (t2 : String) :
    smallNode (Node.mk .mapping "!!map" ""
      [Node.mk .scalar "!!str" t2 [], Node.mk .mapping "!!map" "" []]) = true := rfl

/-- The empty placeholder mapping is small. -/
theorem smallNode_emptyMap : smallNode (Node.mk .mapping "!!map" "" []) = true := rfl

/-- Inversion of the terminal (no-tokens-left) case of `insertR`. -/
theorem insertR_nil_inv (parse : String → Except Err Node)
    (root value : Node) (out : InsOut)
    (h : insertR parse root [] value = .ok out) :
    (root.kind = .mapping ∧ value.kind = .mapping ∧
      out = ⟨root.withContent (root.content ++ value.content), [],
             root.withContent (root.content ++ value.content), true⟩) ∨
    (root.kind = .mapping ∧ root.content = [] ∧
      out = ⟨value, [], value, false⟩) := by
  obtain ⟨rk, rt, rv, rc⟩ := root
  cases rk with
  | mapping =>
    obtain ⟨vk, vt, vv, vc⟩ := value
    cases vk with
    | mapping =>
      left
      refine ⟨rfl, rfl, ?_⟩
      have h2 : Res.ok (⟨Node.mk .mapping rt rv (rc ++ vc), [],
          Node.mk .mapping rt rv (rc ++ vc), true⟩ : InsOut) = .ok out := h
      injection h2 with h3
      exact h3.symm
    | document =>
      right
      by_cases he : rc.isEmpty = true
      · have hrc : rc = [] := by simpa using he
        subst hrc
        have h2 : Res.ok (⟨Node.mk .document vt vv vc, [],
            Node.mk .document vt vv vc, false⟩ : InsOut) = .ok out := h
        injection h2 with h3
        exact ⟨rfl, rfl, h3.symm⟩
      · have h2 : (Res.error (.cannotInsert .document vt .mapping rt) : Res InsOut)
            = .ok out := by
          have h3 : (if rc.isEmpty then
              (Res.ok (⟨Node.mk .document vt vv vc, [],
                Node.mk .document vt vv vc, false⟩ : InsOut))
            else .error (.cannotInsert .document vt .mapping rt)) = .ok out := h
          rwa [if_neg (by simpa using he)] at h3
        exact absurd h2 (by simp)
    | sequence =>
      right
      by_cases he : rc.isEmpty = true
      · have hrc : rc = [] := by simpa using he
        subst hrc
        have h2 : Res.ok (⟨Node.mk .sequence vt vv vc, [],
            Node.mk .sequence vt vv vc, false⟩ : InsOut) = .ok out := h
        injection h2 with h3
        exact ⟨rfl, rfl, h3.symm⟩
      · have h2 : (Res.error (.cannotInsert .sequence vt .mapping rt) : Res InsOut)
            = .ok out := by
          have h3 : (if rc.isEmpty then
              (Res.ok (⟨Node.mk .sequence vt vv vc, [],
                Node.mk .sequence vt vv vc, false⟩ : InsOut))
            else .error (.cannotInsert .sequence vt .mapping rt)) = .ok out := h
          rwa [if_neg (by simpa using he)] at h3
        exact absurd h2 (by simp)
    | scalar =>
      right
      by_cases he : rc.isEmpty = true
      · have hrc : rc = [] := by simpa using he
        subst hrc
        have h2 : Res.ok (⟨Node.mk .scalar vt vv vc, [],
            Node.mk .scalar vt vv vc, false⟩ : InsOut) = .ok out := h
        injection h2 with h3
        exact ⟨rfl, rfl, h3.symm⟩
      · have h2 : (Res.error (.cannotInsert .scalar vt .mapping rt) : Res InsOut)
            = .ok out := by
          have h3 : (if rc.isEmpty then
              (Res.ok (⟨Node.mk .scalar vt vv vc, [],
                Node.mk .scalar vt vv vc, false⟩ : InsOut))
            else .error (.cannotInsert .scalar vt .mapping rt)) = .ok out := h
          rwa [if_neg (by simpa using he)] at h3
        exact absurd h2 (by simp)
    | aliasNode =>
      right
      by_cases he : rc.isEmpty = true
      · have hrc : rc = [] := by simpa using he
        subst hrc
        have h2 : Res.ok (⟨Node.mk .aliasNode vt vv vc, [],
            Node.mk .aliasNode vt vv vc, false⟩ : InsOut) = .ok out := h
        injection h2 with h3
        exact ⟨rfl, rfl, h3.symm⟩
      · have h2 : (Res.error (.cannotInsert .aliasNode vt .mapping rt) : Res InsOut)
            = .ok out := by
          have h3 : (if rc.isEmpty then
              (Res.ok (⟨Node.mk .aliasNode vt vv vc, [],
                Node.mk .aliasNode vt vv vc, false⟩ : InsOut))
            else .error (.cannotInsert .aliasNode vt .mapping rt)) = .ok out := h
          rwa [if_neg (by simpa using he)] at h3
        exact absurd h2 (by simp)
  | document => simp [insertR, Node.kind] at h
  | sequence => simp [insertR, Node.kind] at h
  | scalar => simp [insertR, Node.kind] at h
  | aliasNode => simp [insertR, Node.kind] at h

/-- The deep-sequence case of the round-trip invariant: recursing into a
matched non-Scalar element and writing the recursion result back at the
position the match selected. -/
theorem insertR_rt_seq_deep (parse : String → Except Err Node)
    (t t2 : String) (ts2 : List String) (rt rv : String) (rc rest : List Node)
    (value : Node) (out : InsOut) (n0 : Node)
    (hns : n0.kind ≠ .scalar)
    (hsmall' : rc.length < 2 ^ 63 ∧ smallNodes rc = true)
    (hm : matchTok parse (.mk .sequence rt rv rc) t = .ok (n0 :: rest))
    (hins : (match insertR parse n0 (t2 :: ts2) value with
             | .panic => (Res.panic : Res InsOut)
             | .error e => .error e
             | .ok r =>
               match seqSelIdx parse rc t with
               | some idx =>
                 .ok ⟨(Node.mk .sequence rt rv rc).withContent (rc.set idx r.tree),
                      (if isPredTok t then natToDecimal idx else t) :: r.rtoks,
                      r.written, r.merged⟩
               | none => .panic) = .ok out)
    (ih : ∀ (root value : Node) (out : InsOut),
      smallNode root = true →
      insertR parse root (t2 :: ts2) value = .ok out →
      (t2 :: ts2 = [] → out.tree = out.written ∧ out.rtoks = []) ∧
      (t2 :: ts2 ≠ [] → out.rtoks ≠ [] ∧
        find parse out.tree out.rtoks = .ok [out.written]) ∧
      (out.merged = false → out.written = value) ∧
      ((∀ tok ∈ t2 :: ts2, '/' ∉ tok.toList) →
        ∀ rtok ∈ out.rtoks, '/' ∉ rtok.toList)) :
    (t :: t2 :: ts2 = [] → out.tree = out.written ∧ out.rtoks = []) ∧
    (t :: t2 :: ts2 ≠ [] → out.rtoks ≠ [] ∧
      find parse out.tree out.rtoks = .ok [out.written]) ∧
    (out.merged = false → out.written = value) ∧
    ((∀ tok ∈ t :: t2 :: ts2, '/' ∉ tok.toList) →
      ∀ rtok ∈ out.rtoks, '/' ∉ rtok.toList) := by
  cases hr : insertR parse n0 (t2 :: ts2) value with
  | panic => rw [hr] at hins; exact absurd hins (by simp)
  | error e => rw [hr] at hins; exact absurd hins (by simp)
  | ok r =>
    rw [hr] at hins
    have hd : t ≠ "-" := by
      intro he
      subst he
      rw [matchTok_mk_seq_dash] at hm
      injection hm with hm'
      injection hm' with hx _
      exact hns (by rw [← hx]; rfl)
    obtain ⟨idx, hsel, hlt, hgetn0⟩ := seqSelIdx_of_match parse rt rv rc t n0 rest hm hd
    rw [hsel] at hins
    injection hins with h3
    subst h3
    dsimp only
    simp only [Node.withContent]
    have hsmn0 : smallNode n0 = true := by
      obtain ⟨hlt2, heq⟩ := List.getElem?_eq_some.mp hgetn0
      exact smallNodes_mem rc n0 hsmall'.2 (heq ▸ List.getElem_mem hlt2)
    obtain ⟨hih1, hih2, hih3, hih4⟩ := ih n0 value r hsmn0 hr
    obtain ⟨hrne, hfind⟩ := hih2 (by simp)
    have hmatch : matchTok parse
        (.mk .sequence rt rv (rc.set idx r.tree))
        (if isPredTok t then natToDecimal idx else t) = .ok [r.tree] := by
      by_cases hp : isPredTok t = true
      · rw [if_pos hp]
        exact matchTok_seq_set parse rt rv rc idx r.tree (natToDecimal idx) (idx : Int)
          (atoi_natToDecimal idx (lt_trans hlt hsmall'.1)) (Int.ofNat_nonneg _)
          (by simp) hlt
      · rw [if_neg hp]
        obtain ⟨i, hai, h0, hidc, _⟩ := seqSelIdx_inv parse rc t idx
          (by simpa using hp) hd hsel
        exact matchTok_seq_set parse rt rv rc idx r.tree t i hai h0 hidc hlt
    refine ⟨fun h => by simp at h, fun _ => ⟨by simp, ?_⟩, hih3, ?_⟩
    · rw [find_cons_single parse _ r.tree _ r.rtoks hmatch hrne]
      exact hfind
    · intro hno rtok hrt
      rcases List.mem_cons.mp hrt with he | hmem
      · subst he
        by_cases hp : isPredTok t = true
        · rw [if_pos hp]
          exact natToDecimal_no_slash idx
        · rw [if_neg hp]
          exact hno t (by simp)
      · exact hih4 (fun tok hmt => hno tok (by simp [hmt])) rtok hmem

/-- The round-trip invariant of one successful `insertR`: the resolved
token path is non-empty (for a non-empty input path), resolves in the
updated tree to exactly the written node, the written node is the inserted
value unless the terminal step merged, and resolved tokens contain no
separator if the input tokens did not. -/
theorem insertR_roundtrip (parse : String → Except Err Node) :
    ∀ (toks : List String) (root value : Node) (out : InsOut),
      smallNode root = true →
      insertR parse root toks value = .ok out →
      (toks = [] → out.tree = out.written ∧ out.rtoks = []) ∧
      (toks ≠ [] → out.rtoks ≠ [] ∧ find parse out.tree out.rtoks = .ok [out.written]) ∧
      (out.merged = false → out.written = value) ∧
      ((∀ tok ∈ toks, '/' ∉ tok.toList) → ∀ rtok ∈ out.rtoks, '/' ∉ rtok.toList) := by
  intro toks
  induction toks with
  | nil =>
    intro root value out hsmall hins
    rcases insertR_nil_inv parse root value out hins with
      ⟨_, _, hout⟩ | ⟨_, _, hout⟩ <;> subst hout
    · exact ⟨fun _ => ⟨rfl, rfl⟩, fun hne => absurd rfl hne,
        fun hm => absurd hm (by simp), fun _ => by simp⟩
    · exact ⟨fun _ => ⟨rfl, rfl⟩, fun hne => absurd rfl hne,
        fun _ => rfl, fun _ => by simp⟩
  | cons t ts ih =>
    intro root value out hsmall hins
    obtain ⟨rk, rt, rv, rc⟩ := root
    have hsmall' := (smallNode_mk rk rt rv rc).mp hsmall
    cases rk with
    | sequence =>
      rw [insertR_seq_step] at hins
      cases hm : matchTok parse (.mk .sequence rt rv rc) t with
      | panic => rw [hm] at hins; exact absurd hins (by simp)
      | error e => rw [hm] at hins; exact absurd hins (by simp)
      | ok next =>
        rw [hm] at hins
        cases ts with
        | nil =>
          by_cases hd : (t == "-") = true
          · have hins2 : Res.ok (⟨(Node.mk .sequence rt rv rc).withContent (rc ++ [value]),
                [natToDecimal rc.length], value, false⟩ : InsOut) = .ok out := by
              have h3 : (if t == "-" then
                  Res.ok (⟨(Node.mk .sequence rt rv rc).withContent (rc ++ [value]),
                    [natToDecimal rc.length], value, false⟩ : InsOut)
                else
                  match sequenceInsertAt (.mk .sequence rt rv rc) t value with
                  | .panic => .panic
                  | .error e => .error e
                  | .ok root' => .ok ⟨root', [t], value, false⟩) = .ok out := hins
              rwa [if_pos hd] at h3
            injection hins2 with h3
            subst h3
            refine ⟨fun h => by simp at h, fun _ => ⟨by simp, ?_⟩, fun _ => rfl, ?_⟩
            · rw [find_single]
              exact matchTok_seq_append_last parse rt rv rc value hsmall'.1
            · intro _ rtok hrt
              simp only [List.mem_singleton] at hrt
              subst hrt
              exact natToDecimal_no_slash rc.length
          · have hins2 : (match sequenceInsertAt (.mk .sequence rt rv rc) t value with
                | .panic => (Res.panic : Res InsOut)
                | .error e => .error e
                | .ok root' => .ok ⟨root', [t], value, false⟩) = .ok out := by
              have h3 : (if t == "-" then
                  Res.ok (⟨(Node.mk .sequence rt rv rc).withContent (rc ++ [value]),
                    [natToDecimal rc.length], value, false⟩ : InsOut)
                else
                  match sequenceInsertAt (.mk .sequence rt rv rc) t value with
                  | .panic => .panic
                  | .error e => .error e
                  | .ok root' => .ok ⟨root', [t], value, false⟩) = .ok out := hins
              rwa [if_neg (by simpa using hd)] at h3
            cases hsa : sequenceInsertAt (.mk .sequence rt rv rc) t value with
            | panic => exact absurd hsa (sequenceInsertAt_ne_panic _ _ _)
            | error e => rw [hsa] at hins2; exact absurd hins2 (by simp)
            | ok root' =>
              rw [hsa] at hins2
              injection hins2 with h3
              subst h3
              obtain ⟨i, hai, h0, hlt, heq⟩ :=
                sequenceInsertAt_ok_inv _ t value root' (by simpa using hd) hsa
              simp only [Node.content] at hlt
              refine ⟨fun h => by simp at h, fun _ => ⟨by simp, ?_⟩, fun _ => rfl, ?_⟩
              · rw [find_single, heq]
                exact matchTok_seq_insertIdx parse rt rv rc i.toNat value t i hai h0 rfl
                  (le_of_lt hlt)
              · intro hno rtok hrt
                simp only [List.mem_singleton] at hrt
                rw [hrt]
                exact hno t (by simp)
        | cons t2 ts2 =>
          cases next with
          | nil => exact absurd hins (by simp)
          | cons n0 rest =>
            obtain ⟨nk, nt, nv, nc⟩ := n0
            cases nk with
            | scalar =>
              have hins2 : (match sequenceInsertAt (.mk .sequence rt rv rc) t
                    (Node.mk .mapping "!!map" ""
                      [Node.mk .scalar "!!str" t2 [],
                       Node.mk .mapping "!!map" "" []]) with
                  | .panic => (Res.panic : Res InsOut)
                  | .error e => .error e
                  | .ok _ =>
                    match insertR parse (Node.mk .mapping "!!map" ""
                        [Node.mk .scalar "!!str" t2 [],
                         Node.mk .mapping "!!map" "" []]) (t2 :: ts2) value with
                    | .panic => .panic
                    | .error e => .error e
                    | .ok r =>
                      match sequenceInsertAt (.mk .sequence rt rv rc) t r.tree with
                      | .panic => .panic
                      | .error e => .error e
                      | .ok root2 =>
                        .ok ⟨root2,
                             (if t == "-" then natToDecimal rc.length else t) :: r.rtoks,
                             r.written, r.merged⟩) = .ok out := hins
              cases hsa : sequenceInsertAt (.mk .sequence rt rv rc) t
                  (Node.mk .mapping "!!map" ""
                    [Node.mk .scalar "!!str" t2 [],
                     Node.mk .mapping "!!map" "" []]) with
              | panic => exact absurd hsa (sequenceInsertAt_ne_panic _ _ _)
              | error e => rw [hsa] at hins2; exact absurd hins2 (by simp)
              | ok u =>
                rw [hsa] at hins2
                have hins3 : (match insertR parse (Node.mk .mapping "!!map" ""
                      [Node.mk .scalar "!!str" t2 [],
                       Node.mk .mapping "!!map" "" []]) (t2 :: ts2) value with
                    | .panic => (Res.panic : Res InsOut)
                    | .error e => .error e
                    | .ok r =>
                      match sequenceInsertAt (.mk .sequence rt rv rc) t r.tree with
                      | .panic => .panic
                      | .error e => .error e
                      | .ok root2 =>
                        .ok ⟨root2,
                             (if t == "-" then natToDecimal rc.length else t) :: r.rtoks,
                             r.written, r.merged⟩) = .ok out := hins2
                cases hr : insertR parse (Node.mk .mapping "!!map" ""
                    [Node.mk .scalar "!!str" t2 [],
                     Node.mk .mapping "!!map" "" []]) (t2 :: ts2) value with
                | panic => rw [hr] at hins3; exact absurd hins3 (by simp)
                | error e => rw [hr] at hins3; exact absurd hins3 (by simp)
                | ok r =>
                  rw [hr] at hins3
                  obtain ⟨hih1, hih2, hih3, hih4⟩ :=
                    ih _ value r (smallNode_placeholder t2) hr
                  obtain ⟨hrne, hfind⟩ := hih2 (by simp)
                  have hins4 : (match sequenceInsertAt (.mk .sequence rt rv rc) t r.tree with
                      | .panic => (Res.panic : Res InsOut)
                      | .error e => .error e
                      | .ok root2 =>
                        .ok ⟨root2,
                             (if t == "-" then natToDecimal rc.length else t) :: r.rtoks,
                             r.written, r.merged⟩) = .ok out := hins3
                  cases hsa2 : sequenceInsertAt (.mk .sequence rt rv rc) t r.tree with
                  | panic => exact absurd hsa2 (sequenceInsertAt_ne_panic _ _ _)
                  | error e => rw [hsa2] at hins4; exact absurd hins4 (by simp)
                  | ok root2 =>
                    rw [hsa2] at hins4
                    injection hins4 with h3
                    subst h3
                    dsimp only
                    by_cases hd : (t == "-") = true
                    · have ht : t = "-" := by simpa using hd
                      subst ht
                      have hroot2 : root2 = Node.mk .sequence rt rv (rc ++ [r.tree]) := by
                        have h4 : Res.ok ((Node.mk .sequence rt rv rc).withContent
                            ((Node.mk .sequence rt rv rc).content ++ [r.tree]))
                            = Res.ok root2 := by
                          rw [← hsa2]
                          rfl
                        injection h4 with h5
                        exact h5.symm
                      subst hroot2
                      refine ⟨fun h => by simp at h, fun _ => ⟨by simp, ?_⟩, hih3, ?_⟩
                      · rw [if_pos (show ("-" == "-") = true from rfl)]
                        rw [find_cons_single parse _ r.tree _ r.rtoks
                          (matchTok_seq_append_last parse rt rv rc r.tree hsmall'.1) hrne]
                        exact hfind
                      · intro hno rtok hrt
                        rw [if_pos (show ("-" == "-") = true from rfl)] at hrt
                        rcases List.mem_cons.mp hrt with he | hmem
                        · subst he
                          exact natToDecimal_no_slash rc.length
                        · exact hih4 (fun tok hmt => hno tok (by simp [hmt])) rtok hmem
                    · obtain ⟨i, hai, h0, hlt, heq⟩ :=
                        sequenceInsertAt_ok_inv _ t r.tree root2 (by simpa using hd) hsa2
                      simp only [Node.content] at hlt
                      refine ⟨fun h => by simp at h, fun _ => ⟨by simp, ?_⟩, hih3, ?_⟩
                      · rw [if_neg (by simpa using hd), heq]
                        simp only [Node.withContent, Node.content]
                        rw [find_cons_single parse _ r.tree _ r.rtoks
                          (matchTok_seq_insertIdx parse rt rv rc i.toNat r.tree t i hai h0
                            rfl (le_of_lt hlt)) hrne]
                        exact hfind
                      · intro hno rtok hrt
                        rw [if_neg (by simpa using hd)] at hrt
                        rcases List.mem_cons.mp hrt with he | hmem
                        · rw [he]
                          exact hno t (by simp)
                        · exact hih4 (fun tok hmt => hno tok (by simp [hmt])) rtok hmem
            | document =>
              have hins2 : (match insertR parse (Node.mk .document nt nv nc)
                    (t2 :: ts2) value with
                  | .panic => (Res.panic : Res InsOut)
                  | .error e => .error e
                  | .ok r =>
                    match seqSelIdx parse rc t with
                    | some idx =>
                      .ok ⟨(Node.mk .sequence rt rv rc).withContent (rc.set idx r.tree),
                           (if isPredTok t then natToDecimal idx else t) :: r.rtoks,
                           r.written, r.merged⟩
                    | none => .panic) = .ok out := hins
              exact insertR_rt_seq_deep parse t t2 ts2 rt rv rc rest value out
                (Node.mk .document nt nv nc) (by simp [Node.kind]) hsmall' hm hins2 ih
            | sequence =>
              have hins2 : (match insertR parse (Node.mk .sequence nt nv nc)
                    (t2 :: ts2) value with
                  | .panic => (Res.panic : Res InsOut)
                  | .error e => .error e
                  | .ok r =>
                    match seqSelIdx parse rc t with
                    | some idx =>
                      .ok ⟨(Node.mk .sequence rt rv rc).withContent (rc.set idx r.tree),
                           (if isPredTok t then natToDecimal idx else t) :: r.rtoks,
                           r.written, r.merged⟩
                    | none => .panic) = .ok out := hins
              exact insertR_rt_seq_deep parse t t2 ts2 rt rv rc rest value out
                (Node.mk .sequence nt nv nc) (by simp [Node.kind]) hsmall' hm hins2 ih
            | mapping =>
              have hins2 : (match insertR parse (Node.mk .mapping nt nv nc)
                    (t2 :: ts2) value with
                  | .panic => (Res.panic : Res InsOut)
                  | .error e => .error e
                  | .ok r =>
                    match seqSelIdx parse rc t with
                    | some idx =>
                      .ok ⟨(Node.mk .sequence rt rv rc).withContent (rc.set idx r.tree),
                           (if isPredTok t then natToDecimal idx else t) :: r.rtoks,
                           r.written, r.merged⟩
                    | none => .panic) = .ok out := hins
              exact insertR_rt_seq_deep parse t t2 ts2 rt rv rc rest value out
                (Node.mk .mapping nt nv nc) (by simp [Node.kind]) hsmall' hm hins2 ih
            | aliasNode =>
              have hins2 : (match insertR parse (Node.mk .aliasNode nt nv nc)
                    (t2 :: ts2) value with
                  | .panic => (Res.panic : Res InsOut)
                  | .error e => .error e
                  | .ok r =>
                    match seqSelIdx parse rc t with
                    | some idx =>
                      .ok ⟨(Node.mk .sequence rt rv rc).withContent (rc.set idx r.tree),
                           (if isPredTok t then natToDecimal idx else t) :: r.rtoks,
                           r.written, r.merged⟩
                    | none => .panic) = .ok out := hins
              exact insertR_rt_seq_deep parse t t2 ts2 rt rv rc rest value out
                (Node.mk .aliasNode nt nv nc) (by simp [Node.kind]) hsmall' hm hins2 ih
    | mapping =>
      rw [insertR_map_step] at hins
      cases hm : matchTok parse (.mk .mapping rt rv rc) t with
      | panic => rw [hm] at hins; exact absurd hins (by simp)
      | error e =>
        rw [hm] at hins
        cases e with
        | notFound tk =>
          obtain ⟨hpar, hnf⟩ := matchTok_mk_map_notFound_inv parse rt rv rc t tk hm
          cases ts with
          | nil =>
            have hins2 : Res.ok (⟨(Node.mk .mapping rt rv rc).withContent
                (rc ++ [Node.mk .scalar "" t [], value]), [t], value, false⟩ : InsOut)
                = .ok out := hins
            injection hins2 with h3
            subst h3
            dsimp only
            simp only [Node.withContent]
            refine ⟨fun h => by simp at h, fun _ => ⟨by simp, ?_⟩, by simp, ?_⟩
            · rw [find_single]
              exact matchTok_map_append_pair parse rt rv rc t
                (Node.mk .scalar "" t []) value hpar hnf rfl
            · intro hno rtok hrt
              simp only [List.mem_singleton] at hrt
              rw [hrt]
              exact hno t (by simp)
          | cons t2 ts2 =>
            have hins2 : (match insertR parse (Node.mk .mapping "!!map" "" [])
                  (t2 :: ts2) value with
                | .panic => (Res.panic : Res InsOut)
                | .error e => .error e
                | .ok r =>
                  .ok ⟨(Node.mk .mapping rt rv rc).withContent
                        (rc ++ [Node.mk .scalar "" t [], r.tree]),
                       t :: r.rtoks, r.written, r.merged⟩) = .ok out := hins
            cases hr : insertR parse (Node.mk .mapping "!!map" "" [])
                (t2 :: ts2) value with
            | panic => rw [hr] at hins2; exact absurd hins2 (by simp)
            | error e => rw [hr] at hins2; exact absurd hins2 (by simp)
            | ok r =>
              rw [hr] at hins2
              injection hins2 with h3
              subst h3
              dsimp only
              simp only [Node.withContent]
              obtain ⟨hih1, hih2, hih3, hih4⟩ := ih _ value r smallNode_emptyMap hr
              obtain ⟨hrne, hfind⟩ := hih2 (by simp)
              refine ⟨fun h => by simp at h, fun _ => ⟨by simp, ?_⟩, hih3, ?_⟩
              · rw [find_cons_single parse _ r.tree _ r.rtoks
                  (matchTok_map_append_pair parse rt rv rc t
                    (Node.mk .scalar "" t []) r.tree hpar hnf rfl) hrne]
                exact hfind
              · intro hno rtok hrt
                rcases List.mem_cons.mp hrt with he | hmem
                · rw [he]
                  exact hno t (by simp)
                · exact hih4 (fun tok hmt => hno tok (by simp [hmt])) rtok hmem
        | invalidEmptyPointer => exact absurd hins (by simp)
        | syntaxError => exact absurd hins (by simp)
        | tooManyResults n => exact absurd hins (by simp)
        | badState p => exact absurd hins (by simp)
        | outOfBounds => exact absurd hins (by simp)
        | atoiError tk => exact absurd hins (by simp)
        | malformedTree n => exact absurd hins (by simp)
        | unhandledNodeType k tg => exact absurd hins (by simp)
        | cannotInsert a b c d => exact absurd hins (by simp)
        | parseError s => exact absurd hins (by simp)
        | withPointer p e2 => exact absurd hins (by simp)
      | ok next =>
        rw [hm] at hins
        cases next with
        | nil => exact absurd hins (by simp)
        | cons n0 rest =>
          obtain ⟨hpar, n0', hn0', hf⟩ := matchTok_mk_map_ok_inv parse rt rv rc t _ hm
          injection hn0' with hn0'' hrest
          subst hn0''
          have hins2 : (match insertR parse n0 ts value with
              | .panic => (Res.panic : Res InsOut)
              | .error e => .error e
              | .ok r =>
                .ok ⟨(Node.mk .mapping rt rv rc).withContent
                      (mapReplaceValue rc t r.tree),
                     t :: r.rtoks, r.written, r.merged⟩) = .ok out := hins
          cases hr : insertR parse n0 ts value with
          | panic => rw [hr] at hins2; exact absurd hins2 (by simp)
          | error e => rw [hr] at hins2; exact absurd hins2 (by simp)
          | ok r =>
            rw [hr] at hins2
            injection hins2 with h3
            subst h3
            dsimp only
            simp only [Node.withContent]
            have hsmn0 : smallNode n0 = true :=
              smallNodes_mem rc n0 hsmall'.2 (findPair_mem rc t n0 hf)
            obtain ⟨hih1, hih2, hih3, hih4⟩ := ih n0 value r hsmn0 hr
            have hmatch : matchTok parse
                (.mk .mapping rt rv (mapReplaceValue rc t r.tree)) t = .ok [r.tree] :=
              matchTok_map_replace parse rt rv rc t r.tree n0 hpar hf
            cases ts with
            | nil =>
              obtain ⟨htw, hrt0⟩ := hih1 rfl
              refine ⟨fun h => by simp at h, fun _ => ⟨by simp, ?_⟩, hih3, ?_⟩
              · rw [hrt0, find_single, hmatch, htw]
              · intro hno rtok hrt
                rw [hrt0] at hrt
                rcases List.mem_cons.mp hrt with he | hmem
                · rw [he]
                  exact hno t (by simp)
                · simp at hmem
            | cons t2 ts2 =>
              obtain ⟨hrne, hfind⟩ := hih2 (by simp)
              refine ⟨fun h => by simp at h, fun _ => ⟨by simp, ?_⟩, hih3, ?_⟩
              · rw [find_cons_single parse _ r.tree _ r.rtoks hmatch hrne]
                exact hfind
              · intro hno rtok hrt
                rcases List.mem_cons.mp hrt with he | hmem
                · rw [he]
                  exact hno t (by simp)
                · exact hih4 (fun tok hmt => hno tok (by simp [hmt])) rtok hmem
    | document => simp [insertR, Node.kind] at hins
    | scalar => simp [insertR, Node.kind] at hins
    | aliasNode => simp [insertR, Node.kind] at hins

/-- C10 witness: the sentinel, not an element, comes back from a concrete
two-element sequence. -/
theorem c10_append_token_sentinel_witness :
    FindAll specParse (seqN [strN "e", strN "f"]) "/-" = .ok [sentinelNode] ∧
    Find specParse (seqN [strN "e", strN "f"]) "/-" = .ok sentinelNode :=
  ⟨(c10_append_token_sentinel specParse (seqN [strN "e", strN "f"]) rfl).2.1,
   (c10_append_token_sentinel specParse (seqN [strN "e", strN "f"]) rfl).2.2⟩

/-! ### C1: the insert/find round trip -/

/-- Resolution through a document wrapper starts at its first child, as
`match` delegates document nodes to their first content element. -/
theorem find_document (parse : String → Except Err Node)
    (dt dv : String) (n0 : Node) (rest : List Node)
    (t : String) (ts : List String) :
    find parse (Node.mk .document dt dv (n0 :: rest)) (t :: ts)
      = find parse n0 (t :: ts) := by
  rw [show find parse (Node.mk .document dt dv (n0 :: rest)) (t :: ts)
      = (match matchTok parse n0 t with
         | .panic => .panic
         | .error e => .error e
         | .ok next =>
           match ts with
           | [] => .ok next
           | _ :: _ => joinResults (next.map fun n => find parse n ts)) from rfl]
  rw [show find parse n0 (t :: ts)
      = (match matchTok parse n0 t with
         | .panic => .panic
         | .error e => .error e
         | .ok next =>
           match ts with
           | [] => .ok next
           | _ :: _ => joinResults (next.map fun n => find parse n ts)) from rfl]

/-- Rendering a non-empty token list never gives the empty pointer. -/
theorem renderPtr_ne_empty (t0 : String) (ts0 : List String) :
    renderPtr (t0 :: ts0) ≠ "" := by
  intro he
  have h := congrArg String.toList he
  rw [show (renderPtr (t0 :: ts0)).toList
      = joinSlash ([] :: (t0 :: ts0).map String.toList) from rfl] at h
  rw [show joinSlash ([] :: (t0 :: ts0).map String.toList)
      = '/' :: joinSlash ((t0 :: ts0).map String.toList) from rfl] at h
  simp at h

/-- `FindAll` on a non-empty pointer is the raw resolution when that
resolution succeeds. -/
theorem FindAll_of_find (parse : String → Except Err Node)
    (root : Node) (ptr : String) (toks : List String) (res : List Node)
    (hne : ptr ≠ "") (htok : jsonPointerToTokens ptr = .ok toks)
    (hf : find parse root toks = .ok res) :
    FindAll parse root ptr = .ok res := by
  unfold FindAll
  rw [if_neg (by simpa using hne), htok]
  show (match find parse root toks with
      | .panic => (Res.panic : Res (List Node))
      | .error e => .error (.withPointer ptr e)
      | .ok r2 => .ok r2) = Res.ok res
  rw [hf]

/-- `Find` succeeds with the unique element of a singleton `FindAll`. -/
theorem Find_of_singleton (parse : String → Except Err Node)
    (root : Node) (ptr : String) (w : Node)
    (h : FindAll parse root ptr = .ok [w]) :
    Find parse root ptr = .ok w := by
  unfold Find
  rw [h]
  rfl

/-- Round trip through a document root, stated on the unfolded shape of
`InsertR` (its value-unwrapping step already reduced away). -/
theorem c1_aux (parse : String → Except Err Node)
    (dt dv : String) (c0 : Node) (crest : List Node) (value : Node)
    (ptr : String) (out : InsOut)
    (hsmall : smallNode (Node.mk .document dt dv (c0 :: crest)) = true)
    (hptr : ptr ≠ "")
    (hins2 : (match jsonPointerToTokens ptr with
        | .error e => (.error e : Res InsOut)
        | .ok toks =>
          match insertR parse c0 toks value with
          | .panic => .panic
          | .error e => .error e
          | .ok r =>
            .ok ⟨Node.mk .document dt dv (r.tree :: crest),
                 r.rtoks, r.written, r.merged⟩) = .ok out) :
    out.rtoks ≠ [] ∧
    Find parse out.tree (renderPtr out.rtoks) = .ok out.written ∧
    (out.merged = false → out.written = value) := by
  have hsc0 : smallNode c0 = true := by
    have h := hsmall
    simp only [smallNode, smallNodes, Bool.and_eq_true] at h
    exact h.2.1
  cases htok : jsonPointerToTokens ptr with
  | error e => rw [htok] at hins2; exact absurd hins2 (by simp)
  | ok toks =>
    rw [htok] at hins2
    obtain ⟨htoksne, hnoslash⟩ := jsonPointerToTokens_shape ptr toks hptr htok
    have hins3 : (match insertR parse c0 toks value with
        | .panic => (Res.panic : Res InsOut)
        | .error e => .error e
        | .ok r =>
          .ok ⟨Node.mk .document dt dv (r.tree :: crest),
               r.rtoks, r.written, r.merged⟩) = .ok out := hins2
    cases hr : insertR parse c0 toks value with
    | panic => rw [hr] at hins3; exact absurd hins3 (by simp)
    | error e => rw [hr] at hins3; exact absurd hins3 (by simp)
    | ok r =>
      rw [hr] at hins3
      injection hins3 with h3
      subst h3
      dsimp only
      obtain ⟨hih1, hih2, hih3, hih4⟩ :=
        insertR_roundtrip parse toks c0 value r hsc0 hr
      obtain ⟨hrne, hfind⟩ := hih2 htoksne
      refine ⟨hrne, ?_, hih3⟩
      have hnos : ∀ rtok ∈ r.rtoks, '/' ∉ rtok.toList := hih4 hnoslash
      have htok2 : jsonPointerToTokens (renderPtr r.rtoks) = .ok r.rtoks :=
        jsonPointerToTokens_renderPtr r.rtoks hnos
      cases hrt : r.rtoks with
      | nil => exact absurd hrt hrne
      | cons rt0 rts =>
        have hfd : find parse (Node.mk .document dt dv (r.tree :: crest)) r.rtoks
            = .ok [r.written] := by
          rw [hrt, find_document, ← hrt]
          exact hfind
        have hfa : FindAll parse (Node.mk .document dt dv (r.tree :: crest))
            (renderPtr r.rtoks) = .ok [r.written] :=
          FindAll_of_find parse _ _ r.rtoks [r.written]
            (by rw [hrt]; exact renderPtr_ne_empty rt0 rts) htok2 hfd
        rw [hrt] at hfa
        exact Find_of_singleton parse _ _ r.written hfa

/-- C1 (corrected): for a document root and a non-empty pointer, a
successful `Insert` yields an updated tree in which `Find` at the rendered
resolved path returns exactly the node the insertion wrote; that node is
the inserted value whenever the terminal step did not merge into an
existing mapping — in the merge case the node found is the merged mapping,
not the value.  The instrumented `InsertR` supplies the resolved path and
the merge flag; `Insert` itself is its tree component. -/
theorem c1_insert_find_roundtrip (parse : String → Except Err Node)
    (dt dv : String) (c0 : Node) (crest : List Node) (value : Node)
    (ptr : String) (out : InsOut)
    (hsmall : smallNode (Node.mk .document dt dv (c0 :: crest)) = true)
    (hptr : ptr ≠ "")
    (hvk : value.kind ≠ .document)
    (hins : InsertR parse (Node.mk .document dt dv (c0 :: crest)) ptr value
      = .ok out) :
    Insert parse (Node.mk .document dt dv (c0 :: crest)) ptr value
      = .ok out.tree ∧
    out.rtoks ≠ [] ∧
    Find parse out.tree (renderPtr out.rtoks) = .ok out.written ∧
    (out.merged = false → out.written = value) := by
  have hIns : Insert parse (Node.mk .document dt dv (c0 :: crest)) ptr value
      = .ok out.tree := by
    rw [Insert_eq_InsertR, hins]
    rfl
  obtain ⟨vk, vt, vv, vc⟩ := value
  cases vk with
  | document => exact absurd rfl hvk
  | sequence =>
    exact ⟨hIns, c1_aux parse dt dv c0 crest _ ptr out hsmall hptr hins⟩
  | mapping =>
    exact ⟨hIns, c1_aux parse dt dv c0 crest _ ptr out hsmall hptr hins⟩
  | scalar =>
    exact ⟨hIns, c1_aux parse dt dv c0 crest _ ptr out hsmall hptr hins⟩
  | aliasNode =>
    exact ⟨hIns, c1_aux parse dt dv c0 crest _ ptr out hsmall hptr hins⟩

/-- C1 witness: inserting a scalar under a fresh key of a document's empty
root mapping, then finding it again at the rendered resolved path. -/
theorem c1_insert_find_roundtrip_witness :
    smallNode (Node.mk .document "" "" [mapN []]) = true ∧
    ("/a" : String) ≠ "" ∧ (strN "v").kind ≠ Kind.document ∧
    ∃ out, InsertR specParse (Node.mk .document "" "" [mapN []]) "/a" (strN "v")
        = .ok out ∧
      (Insert specParse (Node.mk .document "" "" [mapN []]) "/a" (strN "v")
          = .ok out.tree ∧
       out.rtoks ≠ [] ∧
       Find specParse out.tree (renderPtr out.rtoks) = .ok out.written ∧
       (out.merged = false → out.written = strN "v")) := by
  refine ⟨rfl, by decide, by decide, ⟨Node.mk .document "" ""
      [Node.mk .mapping "!!map" "" [Node.mk .scalar "" "a" [], strN "v"]],
      ["a"], strN "v", false⟩, rfl, ?_⟩
  exact c1_insert_find_roundtrip specParse "" "" (mapN []) [] (strN "v") "/a"
    ⟨Node.mk .document "" ""
      [Node.mk .mapping "!!map" "" [Node.mk .scalar "" "a" [], strN "v"]],
      ["a"], strN "v", false⟩ rfl (by decide) (by decide) rfl

/-- C1 counterexample to the claimed unqualified round trip: inserting a
mapping value at a path whose target mapping already exists merges the
pairs, so the node `Find` returns at the resolved path is the merged
mapping, not a node equal to the inserted value. -/
theorem c1_counterexample :
    ∃ tree, Insert specParse
        (docN (mapN [strN "a", mapN [strN "k", strN "w"]]))
        "/a" (mapN [strN "k2", strN "w2"]) = .ok tree ∧
      ∃ w, Find specParse tree "/a" = .ok w ∧
        w ≠ mapN [strN "k2", strN "w2"] := by
  refine ⟨docN (mapN [strN "a",
      mapN [strN "k", strN "w", strN "k2", strN "w2"]]), rfl,
    mapN [strN "k", strN "w", strN "k2", strN "w2"], rfl, ?_⟩
  intro h
  have h2 := congrArg Node.content h
  simp [mapN, Node.content] at h2

end Yptr
